import Mathlib

/-!
# Verification of the Ash Diver procedural blueprint generator

This file gives a shallow embedding of `generate_blueprint.py` (the
nine-stage terrain-generation pipeline) and proves or refutes the frozen
specification claims about it.

Modelling conventions:

* `Grid` is a total function `ℤ × ℤ → ℕ`; the meaningful domain of an
  `h × w` grid is `[0, w) × [0, h)` (cells written `(x, y)`, matching the
  source's `grid[y, x]` indexing).  The grid is allocated filled with
  `T_FILL`, so cells outside the domain always read `T_FILL`.
* NumPy writes that are bounds-checked in the source are embedded with
  `setIn` (out-of-bounds writes are no-ops, exactly like the source's
  explicit `0 <= c < n` guards).  The two unguarded NumPy writes in
  `_step8_spawn_goal` are embedded with `npSet`, which reproduces NumPy's
  negative-index wrap-around semantics.
* The seeded PCG64 generator `np.random.default_rng(seed)` is modelled as
  an abstract stream `ℕ → ℚ` of draws threaded by an explicit cursor
  `idx`; `rng.random()` is `Int.fract` of the next stream value (a value
  in `[0,1)`, every such value attainable), `rng.integers(lo, hi)` maps
  the next stream value into `[lo, hi)`.  Claims quantifying over "every
  seed" quantify over every stream.
* Floating-point trigonometry in the cave carver (`np.arctan2`-based
  per-angle radius interpolation) is abstracted as an explicit parameter
  `ic : (ℕ → ℚ) → ℤ → ℤ → Bool` deciding whether a bounding-box cell is
  inside the cave given the 36 sampled radii; every claim is proved for
  every instantiation of this parameter.  All other float arithmetic is
  modelled exactly over `ℚ`.
* `rng.choice(n, k, replace=False)` (the without-replacement index
  sampler used only to pick sampling pools in the connectivity merger) is
  likewise abstracted as a deterministic parameter
  `choice : ℕ → ℕ → ℕ → List ℕ` of the rng cursor, pool size and sample
  size; the Python `set` used only as a sampling pool is modelled as a
  list.
* The `while y < height - 5` tunnel walk is not structurally recursive
  (that is the subject of claim C2), so the pipeline takes an explicit
  fuel bound for it; every claim about the pipeline holds for every fuel.
-/

namespace AshDiver

set_option maxRecDepth 40000

/-! ## Tile constants (source lines 19-23) -/

abbrev Tile := ℕ

def T_AIR : Tile := 0
def T_TOP : Tile := 1
def T_FILL : Tile := 2
def T_GOAL : Tile := 8
def T_SPAWN : Tile := 9

abbrev Cell := ℤ × ℤ

abbrev Grid := Cell → Tile

/-- `(x, y)` is inside the `h × w` grid domain. -/
def inB (w h : ℕ) (p : Cell) : Prop :=
  0 ≤ p.1 ∧ p.1 < (w : ℤ) ∧ 0 ≤ p.2 ∧ p.2 < (h : ℤ)

instance (w h : ℕ) (p : Cell) : Decidable (inB w h p) := by
  unfold inB; infer_instance

/-- Bounds-checked write: the embedding of every source write that is
guarded by `0 <= c < n` tests (and of NumPy slice writes, which are
in-bounds by construction).  Out-of-bounds writes are silent no-ops. -/
def setIn (w h : ℕ) (g : Grid) (x y : ℤ) (v : Tile) : Grid :=
  if inB w h (x, y) then fun p => if p = (x, y) then v else g p else g

/-- NumPy integer-index resolution on one axis of length `n`: indices in
`[0, n)` are used as-is, indices in `[-n, 0)` wrap around to `n + i`,
anything else is out of range. -/
def npIndex (n : ℕ) (i : ℤ) : Option ℤ :=
  if 0 ≤ i ∧ i < (n : ℤ) then some i
  else if -(n : ℤ) ≤ i ∧ i < 0 then some (i + n)
  else none

/-- Unguarded NumPy write `grid[y, x] = v` with NumPy's negative-index
wrap-around. -/
def npSet (w h : ℕ) (g : Grid) (x y : ℤ) (v : Tile) : Grid :=
  match npIndex w x, npIndex h y with
  | some x', some y' => fun p => if p = (x', y') then v else g p
  | _, _ => g

/-! ## Configuration (source lines 37-65) -/

/-- `BlueprintConfig` (source lines 37-65).  Dimensions, bounds and counts
are natural numbers; the two probability knobs are rationals. -/
structure BlueprintConfig where
  seed : ℕ := 42
  width : ℕ := 200
  height : ℕ := 120
  surface_y_min : ℕ := 8
  surface_y_max : ℕ := 18
  surface_step_max : ℕ := 2
  num_tunnels : ℕ := 5
  tunnel_min_width : ℕ := 3
  tunnel_vertical_clearance : ℕ := 3
  tunnel_branch_chance : ℚ := 15/100
  num_caves : ℕ := 12
  cave_radius_min : ℕ := 5
  cave_radius_max : ℕ := 18
  cave_noise_strength : ℚ := 35/100
  min_region_size : ℕ := 50

/-! ## RNG stream -/

abbrev Stream := ℕ → ℚ

/-- `rng.random()`: the draw at cursor `i`, normalised into `[0, 1)`. -/
def rnd (s : Stream) (i : ℕ) : ℚ := Int.fract (s i)

/-- `rng.integers(lo, hi)`: an arbitrary value of `[lo, hi)` determined by
the stream (totalised to `lo` when the interval is empty). -/
def drawInt (s : Stream) (i : ℕ) (lo hi : ℤ) : ℤ :=
  lo + (⌊s i⌋).emod (max 1 (hi - lo))

/-- `int(np.clip(v, lo, hi))` for integers: `min (max v lo) hi`. -/
def clipZ (v lo hi : ℤ) : ℤ := min (max v lo) hi

/-- Python `range(lo, hi)` over `ℤ`, as a list. -/
def rangeZ (lo hi : ℤ) : List ℤ := (List.range (hi - lo).toNat).map (fun i : ℕ => lo + (i : ℤ))

/-! ## Generator state -/

/-- The mutable state of `BlueprintGenerator`: the grid, the surface
line (a total function, meaningful on `[0, w)`), and the rng cursor. -/
structure GenState where
  grid : Grid
  surface : ℤ → ℤ
  idx : ℕ

/-- `BlueprintGenerator.__init__`: grid full of `T_FILL`, fresh rng. -/
def mkState : GenState := ⟨fun _ => T_FILL, fun _ => 0, 0⟩

/-! ## Step 1: init (source line 92) -/

def step1_init (st : GenState) : GenState :=
  { st with grid := fun _ => T_FILL }

/-! ## Step 2: surface (source lines 97-110) -/

/-- Intermediate state of the column loop in `_step2_surface`. -/
structure SurfSt where
  grid : Grid
  surf : ℤ → ℤ
  y : ℤ
  idx : ℕ

/-- The NumPy slice write `grid[:y, x] = T_AIR` (rows `0 .. min y h - 1`). -/
def carveCol (w h : ℕ) (g : Grid) (x y : ℤ) : Grid :=
  (rangeZ 0 (min y (h : ℤ))).foldl (fun g1 r => setIn w h g1 x r T_AIR) g

/-- One column of the surface walk: perturb, clamp, record, carve. -/
def surfStep (cfg : BlueprintConfig) (s : Stream) (a : SurfSt) (x : ℕ) : SurfSt :=
  let yMin : ℤ := cfg.surface_y_min
  let yMax : ℤ := cfg.surface_y_max
  let stepMax : ℤ := cfg.surface_step_max
  let dy := drawInt s a.idx (-stepMax) (stepMax + 1)
  let y := clipZ (a.y + dy) yMin yMax
  { grid := carveCol cfg.width cfg.height a.grid (x : ℤ) y
    surf := fun t => if t = (x : ℤ) then y else a.surf t
    y := y
    idx := a.idx + 1 }

def step2_surface (cfg : BlueprintConfig) (s : Stream) (st : GenState) : GenState :=
  let y0 := drawInt s st.idx (cfg.surface_y_min : ℤ) ((cfg.surface_y_max : ℤ) + 1)
  let r := (List.range cfg.width).foldl (surfStep cfg s)
    { grid := st.grid, surf := st.surface, y := y0, idx := st.idx + 1 }
  { grid := r.grid, surface := r.surf, idx := r.idx }

/-! ## Step 3: tunnels (source lines 114-169) -/

/-- `np.linspace(w*0.1, w*0.9, n, dtype=int)`: evenly spaced start
columns, truncated to integers (float arithmetic modelled exactly
over `ℚ`; the values are nonnegative so truncation is `⌊·⌋`). -/
def linspaceInt (w n : ℕ) : List ℤ :=
  if n = 1 then [⌊(w : ℚ) / 10⌋]
  else (List.range n).map
    (fun i : ℕ => ⌊(w : ℚ) / 10 + (i : ℚ) * ((9 * (w : ℚ)) / 10 - (w : ℚ) / 10) / ((n : ℚ) - 1)⌋)

/-- `min_w // 2`. -/
def halfOf (cfg : BlueprintConfig) : ℕ := cfg.tunnel_min_width / 2

/-- `max(half, min(v, w - 1 - half))`: the lateral clamp used by the walk
and its branches. -/
def clampX (cfg : BlueprintConfig) (v : ℤ) : ℤ :=
  max (halfOf cfg : ℤ) (min v ((cfg.width : ℤ) - 1 - (halfOf cfg : ℤ)))

/-- Carve a cross-section of width `min_w` and height `clearance` centred
at `(x, y)`, every write bounds-checked (source lines 134-138). -/
def carveCross (cfg : BlueprintConfig) (g : Grid) (x y : ℤ) : Grid :=
  let half : ℤ := halfOf cfg
  (rangeZ (-half) (half + 1)).foldl (fun g1 dx =>
    (rangeZ 0 (cfg.tunnel_vertical_clearance : ℤ)).foldl (fun g2 dy =>
      setIn cfg.width cfg.height g2 (x + dx) (y + dy) T_AIR) g1) g

/-- State of the biased random walk in `_carve_tunnel`. -/
structure WalkSt where
  grid : Grid
  x : ℤ
  y : ℤ
  idx : ℕ

/-- State of a branch walk. -/
structure BranchSt where
  grid : Grid
  bx : ℤ
  yb : ℤ
  idx : ℕ

/-- The branch loop body, iterated `branch_len` times with an early break
when `by >= h - 2` (source lines 158-169). -/
def branchRun (cfg : BlueprintConfig) (s : Stream) (dir : ℤ) :
    ℕ → BranchSt → BranchSt
  | 0, st => st
  | n + 1, st =>
    let g := carveCross cfg st.grid st.bx st.yb
    let bx1 := st.bx + dir
    let yb1 := if rnd s st.idx < 2/5 then st.yb + 1 else st.yb
    let bx2 := max (halfOf cfg : ℤ) (min bx1 ((cfg.width : ℤ) - 1 - (halfOf cfg : ℤ)))
    if (cfg.height : ℤ) - 2 ≤ yb1 then ⟨g, bx2, yb1, st.idx + 1⟩
    else branchRun cfg s dir n ⟨g, bx2, yb1, st.idx + 1⟩

/-- One iteration of the `while y < max_depth` walk body
(source lines 132-169): carve the cross-section, move with the biased
lateral/downward choice, apply the extra 30% downward step, then
possibly spawn a bounded branch walk. -/
def walkBody (cfg : BlueprintConfig) (s : Stream) (st : WalkSt) : WalkSt :=
  let g := carveCross cfg st.grid st.x st.y
  let d := rnd s st.idx
  let x1 := if d < 3/5 then st.x
    else if d < 4/5 then clampX cfg (st.x - 1) else clampX cfg (st.x + 1)
  let y1 := if d < 3/5 then st.y + 1 else st.y
  let y2 := if rnd s (st.idx + 1) < 3/10 then y1 + 1 else y1
  let i3 := st.idx + 2
  if rnd s i3 < cfg.tunnel_branch_chance ∧ y2 < (cfg.height : ℤ) - 20 then
    let len := drawInt s (i3 + 1) 10 30
    let dir : ℤ := if rnd s (i3 + 2) < 1/2 then -1 else 1
    let b := branchRun cfg s dir len.toNat ⟨g, x1, y2, i3 + 3⟩
    ⟨b.grid, x1, y2, b.idx⟩
  else ⟨g, x1, y2, i3 + 1⟩

/-- `n` unconditional iterations of the walk body (used to reason about
the loop as a mathematical iteration). -/
def walkIter (cfg : BlueprintConfig) (s : Stream) : ℕ → WalkSt → WalkSt
  | 0, st => st
  | n + 1, st => walkIter cfg s n (walkBody cfg s st)

/-- The `while y < max_depth` loop of `_carve_tunnel`, with explicit
fuel: the loop body runs while `y < h - 5` and fuel remains. -/
def walkRun (cfg : BlueprintConfig) (s : Stream) : ℕ → WalkSt → WalkSt
  | 0, st => st
  | n + 1, st =>
    if st.y < (cfg.height : ℤ) - 5 then walkRun cfg s n (walkBody cfg s st)
    else st

/-- The walk terminates: some fuel makes the fueled loop `walkRun` exit
with the guard `y < h - 5` false — the loop stops by falsifying its
condition, not by exhausting the fuel. -/
def WalkTerminates (cfg : BlueprintConfig) (s : Stream) (st : WalkSt) : Prop :=
  ∃ n, ¬ (walkRun cfg s n st).y < (cfg.height : ℤ) - 5

/-- `_carve_tunnel(start_x, ...)`: run the walk from the surface row of
`start_x`, returning the updated grid and rng cursor. -/
def carveTunnel (cfg : BlueprintConfig) (s : Stream) (fuel : ℕ)
    (g : Grid) (surf : ℤ → ℤ) (startX : ℤ) (idx : ℕ) : Grid × ℕ :=
  let r := walkRun cfg s fuel ⟨g, startX, surf startX, idx⟩
  (r.grid, r.idx)

def step3_tunnels (cfg : BlueprintConfig) (s : Stream) (fuel : ℕ)
    (st : GenState) : GenState :=
  let r := (linspaceInt cfg.width cfg.num_tunnels).foldl
    (fun (a : Grid × ℕ) sx => carveTunnel cfg s fuel a.1 st.surface sx a.2)
    (st.grid, st.idx)
  { st with grid := r.1, idx := r.2 }

/-! ## Step 4: caves (source lines 173-208) -/

/-- `int(surface_line.max())` (the array is nonnegative here and NumPy's
max over the `w` live entries is modelled as a fold). -/
def surfaceMax (w : ℕ) (surf : ℤ → ℤ) : ℤ :=
  (List.range w).foldl (fun m (x : ℕ) => max m (surf (x : ℤ))) 0

/-- Carve one cave: pick a centre, compute the depth-scaled base radius
and the 36 noisy per-angle radii (all exact over `ℚ`), then carve every
bounding-box cell the abstract inside-test `ic` accepts
(source lines 182-208; the `arctan2`-based interpolation is `ic`). -/
def caveStep (cfg : BlueprintConfig) (s : Stream) (ic : (ℕ → ℚ) → ℤ → ℤ → Bool)
    (sMax : ℤ) (a : Grid × ℕ) : Grid × ℕ :=
  let w := cfg.width
  let h := cfg.height
  let rMin : ℤ := cfg.cave_radius_min
  let rMax : ℤ := cfg.cave_radius_max
  let cx := drawInt s a.2 (rMax + 2) ((w : ℤ) - rMax - 2)
  let cy := drawInt s (a.2 + 1) sMax ((h : ℤ) - rMax - 2)
  let depthFrac : ℚ := ((cy - sMax : ℤ) : ℚ) / ((max 1 ((h : ℤ) - sMax - rMax) : ℤ) : ℚ)
  let baseR : ℚ := max (rMin : ℚ) (min ((rMin : ℚ) + ((rMax - rMin : ℤ) : ℚ) * depthFrac) (rMax : ℚ))
  let radii : ℕ → ℚ := fun i => baseR * (1 + cfg.cave_noise_strength * (rnd s (a.2 + 2 + i) * 2 - 1))
  let g := (rangeZ (max 0 (cy - rMax - 2)) (min (h : ℤ) (cy + rMax + 2))).foldl (fun g1 y =>
    (rangeZ (max 0 (cx - rMax - 2)) (min (w : ℤ) (cx + rMax + 2))).foldl (fun g2 x =>
      if ic radii (x - cx) (y - cy) then setIn w h g2 x y T_AIR else g2) g1) a.1
  (g, a.2 + 38)

def step4_caves (cfg : BlueprintConfig) (s : Stream) (ic : (ℕ → ℚ) → ℤ → ℤ → Bool)
    (st : GenState) : GenState :=
  let sMax := surfaceMax cfg.width st.surface + 10
  let r := (List.range cfg.num_caves).foldl (fun a _ => caveStep cfg s ic sMax a)
    (st.grid, st.idx)
  { st with grid := r.1, idx := r.2 }

/-! ## Step 5: filter small regions (source lines 212-240) -/

abbrev Vis := Cell → Bool

/-- The 4-neighbourhood, in the source's order
`(x-1,y), (x+1,y), (x,y-1), (x,y+1)`. -/
def nbrs (p : Cell) : List Cell :=
  [(p.1 - 1, p.2), (p.1 + 1, p.2), (p.1, p.2 - 1), (p.1, p.2 + 1)]

/-- State of the BFS flood fill: FIFO queue, visited map, output list. -/
structure BfsSt where
  queue : List Cell
  vis : Vis
  region : List Cell

/-- Visit one neighbour: push (and mark) it if it is an unvisited
in-bounds air cell. -/
def bfsVisit (w h : ℕ) (g : Grid) (a : BfsSt) (n : Cell) : BfsSt :=
  if inB w h n ∧ a.vis n = false ∧ g n = T_AIR then
    ⟨a.queue ++ [n], fun q => if q = n then true else a.vis q, a.region⟩
  else a

/-- One iteration of the BFS loop: pop the front cell into the region,
then push (and mark) each unvisited in-bounds air neighbour. -/
def bfsStep (w h : ℕ) (g : Grid) (st : BfsSt) : BfsSt :=
  match st.queue with
  | [] => st
  | c :: rest => (nbrs c).foldl (bfsVisit w h g) ⟨rest, st.vis, st.region ++ [c]⟩

/-- The BFS loop, with fuel (the loop runs while the queue is nonempty;
`w*h + 1` fuel always suffices, which is proved below). -/
def bfsRun (w h : ℕ) (g : Grid) : ℕ → BfsSt → BfsSt
  | 0, st => st
  | n + 1, st =>
    match st.queue with
    | [] => st
    | _ => bfsRun w h g n (bfsStep w h g st)

/-- `_bfs_flood(sx, sy, visited)` (source lines 225-240): seed the queue
with the start cell, mark it, run the loop; returns the region list and
the updated visited map. -/
def bfsFlood (w h : ℕ) (g : Grid) (c : Cell) (vis : Vis) : List Cell × Vis :=
  let st := bfsRun w h g (w * h + 1)
    ⟨[c], fun q => if q = c then true else vis q, []⟩
  (st.region, st.vis)

/-- Row-major scan order `for y in range(h): for x in range(w)`. -/
def scanRM (w h : ℕ) : List Cell :=
  (List.range h).flatMap (fun y : ℕ => (List.range w).map (fun x : ℕ => ((x : ℤ), (y : ℤ))))

/-- Fill all cells of `l` back to `T_FILL`. -/
def fillCells (w h : ℕ) (g : Grid) (l : List Cell) : Grid :=
  l.foldl (fun g1 q => setIn w h g1 q.1 q.2 T_FILL) g

/-- One scan cell of `_step5_filter`: flood any unvisited air cell and
fill its region back if it is smaller than `min_region_size`. -/
def filterStep (cfg : BlueprintConfig) (a : Grid × Vis) (c : Cell) : Grid × Vis :=
  if a.1 c = T_AIR ∧ a.2 c = false then
    let r := bfsFlood cfg.width cfg.height a.1 c a.2
    if r.1.length < cfg.min_region_size then (fillCells cfg.width cfg.height a.1 r.1, r.2)
    else (a.1, r.2)
  else a

def step5_filter (cfg : BlueprintConfig) (st : GenState) : GenState :=
  let r := (scanRM cfg.width cfg.height).foldl (filterStep cfg) (st.grid, fun _ => false)
  { st with grid := r.1 }

/-! ## Step 6: connect (source lines 244-323) -/

/-- `_find_air_regions` (source lines 288-299): flood every unvisited air
cell in scan order, collecting the region lists. -/
def findAirRegions (w h : ℕ) (g : Grid) : List (List Cell) :=
  ((scanRM w h).foldl (fun (a : List (List Cell) × Vis) c =>
    if g c = T_AIR ∧ a.2 c = false then
      let r := bfsFlood w h g c a.2
      (a.1 ++ [r.1], r.2)
    else a) ([], fun _ => false)).1

/-- `_carve_l_tunnel(a, b)` (source lines 301-323): a horizontal leg at
row `a.y` from `a.x` to `b.x`, then a vertical leg at column `b.x`, both
`min_w` thick, every write bounds-checked. -/
def carveL (cfg : BlueprintConfig) (g : Grid) (a b : Cell) : Grid :=
  let half : ℤ := halfOf cfg
  let w := cfg.width
  let h := cfg.height
  let g1 := (rangeZ (min a.1 b.1) (max a.1 b.1 + 1)).foldl (fun gh x =>
    (rangeZ (-half) (half + 1)).foldl (fun gh2 dy =>
      setIn w h gh2 x (a.2 + dy) T_AIR) gh) g
  (rangeZ (min a.2 b.2) (max a.2 b.2 + 1)).foldl (fun gv y =>
    (rangeZ (-half) (half + 1)).foldl (fun gv2 dx =>
      setIn w h gv2 (b.1 + dx) y T_AIR) gv) g1

/-- `for i, region in enumerate(regions): for x, y in region:` scan for
the region containing the topmost air cell (source lines 252-259). -/
def surfaceRegionIdx (h : ℕ) (regions : List (List Cell)) : ℕ :=
  ((regions.enum.foldl (fun (a : ℤ × ℕ) ir =>
    ir.2.foldl (fun a2 c => if c.2 < a2.1 then (c.2, ir.1) else a2) a)
    ((h : ℤ), 0))).2

/-- Process one region of `_step6_connect`: sample both pools through the
abstract without-replacement sampler, take the closest sampled pair by
Manhattan distance, carve an L-tunnel between them and merge the region
into the surface pool. -/
def connectStep (cfg : BlueprintConfig) (choice : ℕ → ℕ → ℕ → List ℕ) (sIdx : ℕ)
    (a : List Cell × Grid × ℕ) (ir : ℕ × List Cell) : List Cell × Grid × ℕ :=
  if ir.1 = sIdx then a
  else
    let region := ir.2
    let surfaceList := a.1
    let sampleSize := min 200 region.length
    let sampleRegion := (choice a.2.2 region.length sampleSize).map
      (fun j => region.getD j ((0 : ℤ), (0 : ℤ)))
    let sampleSurface := (choice (a.2.2 + 1) surfaceList.length (min 200 surfaceList.length)).map
      (fun j => surfaceList.getD j ((0 : ℤ), (0 : ℤ)))
    let best := sampleRegion.foldl (fun b p =>
      sampleSurface.foldl (fun b2 q =>
        let d := |p.1 - q.1| + |p.2 - q.2|
        match b2 with
        | none => some (d, p, q)
        | some t => if d < t.1 then some (d, p, q) else b2) b)
      (none : Option (ℤ × Cell × Cell))
    match best with
    | none => (surfaceList, a.2.1, a.2.2 + 2)
    | some t => (surfaceList ++ region, carveL cfg a.2.1 t.2.1 t.2.2, a.2.2 + 2)

/-- `_step6_connect` (source lines 244-286). -/
def step6_connect (cfg : BlueprintConfig) (choice : ℕ → ℕ → ℕ → List ℕ)
    (st : GenState) : GenState :=
  let regions := findAirRegions cfg.width cfg.height st.grid
  if regions.length ≤ 1 then st
  else
    let sIdx := surfaceRegionIdx cfg.height regions
    let base := regions.getD sIdx []
    let r := regions.enum.foldl (connectStep cfg choice sIdx) (base, st.grid, st.idx)
    { st with grid := r.2.1, idx := r.2.2 }

/-! ## Step 7: surface entry check (source lines 327-351) -/

/-- Column `x` has continuous air from its surface row down into the
underground zone. -/
def entryAt (cfg : BlueprintConfig) (st : GenState) (usStart : ℤ) (x : ℤ) : Bool :=
  (rangeZ (st.surface x) (min (usStart + 5) (cfg.height : ℤ))).all
    (fun y => st.grid (x, y) = T_AIR)

def step7_entry (cfg : BlueprintConfig) (st : GenState) : GenState :=
  let usStart := surfaceMax cfg.width st.surface + 2
  if (List.range cfg.width).any (fun x : ℕ => entryAt cfg st usStart (x : ℤ)) then st
  else
    let cx : ℤ := (cfg.width / 2 : ℕ)
    let surfY := st.surface cx
    let half : ℤ := halfOf cfg
    let g := (rangeZ surfY (min (usStart + 10) (cfg.height : ℤ))).foldl (fun g1 y =>
      (rangeZ (-half) (half + 1)).foldl (fun g2 dx =>
        setIn cfg.width cfg.height g2 (cx + dx) y T_AIR) g1) st.grid
    { st with grid := g }

/-! ## Step 8: spawn and goal (source lines 355-391) -/

/-- `window.max()` of a nonempty NumPy slice, as a fold seeded with the
head. -/
def listMaxZ : List ℤ → ℤ
  | [] => 0
  | a :: t => t.foldl max a

def listMinZ : List ℤ → ℤ
  | [] => 0
  | a :: t => t.foldl min a

/-- One candidate column of the spawn search: score by
`flatness * 10 + dist` over the 5-column window and keep a strict
improvement (`score < best_score`, which starts at `inf`, modelled by
`none`). -/
def spawnStep (cfg : BlueprintConfig) (surf : ℤ → ℤ) (a : ℤ × Option ℤ) (x : ℤ) :
    ℤ × Option ℤ :=
  let w := cfg.width
  let centerX : ℤ := (w / 2 : ℕ)
  let win := (rangeZ (max 0 (x - 2)) (min (w : ℤ) (x + 3))).map surf
  let fl := listMaxZ win - listMinZ win
  let sc := fl * 10 + |x - centerX|
  match a.2 with
  | none => (x, some sc)
  | some b => if sc < b then (x, some sc) else a

/-- The spawn-column search (source lines 359-371): scan the centred
window for the flattest candidate column. -/
def selectSpawnX (cfg : BlueprintConfig) (surf : ℤ → ℤ) : ℤ :=
  let w := cfg.width
  let centerX : ℤ := (w / 2 : ℕ)
  let cands := rangeZ (max 5 (centerX - (w / 4 : ℕ))) (min ((w : ℤ) - 5) (centerX + (w / 4 : ℕ)))
  (cands.foldl (spawnStep cfg surf) (centerX, none)).1

/-- Goal score `depth * 2 + dist` at cell `c` for spawn `(sx, sy)`. -/
def goalScore (sx sy : ℤ) (c : Cell) : ℤ :=
  c.2 * 2 + (|c.1 - sx| + |c.2 - sy|)

/-- Goal scan order `for y in range(h-1, -1, -1): for x in range(w)`:
bottom-to-top, row-major. -/
def scanGoal (w h : ℕ) : List Cell :=
  (List.range h).reverse.flatMap
    (fun y : ℕ => (List.range w).map (fun x : ℕ => ((x : ℤ), (y : ℤ))))

/-- One scan cell of the goal search: update on a strict improvement
`score > best_goal_score`. -/
def goalStep (g : Grid) (sx sy : ℤ) (a : Option Cell × ℤ) (c : Cell) : Option Cell × ℤ :=
  if g c = T_AIR ∧ a.2 < goalScore sx sy c then (some c, goalScore sx sy c) else a

/-- The goal search (source lines 377-388): scan for the best
`score > best_goal_score` strict improvement, starting from `-1`. -/
def selectGoal (w h : ℕ) (g : Grid) (sx sy : ℤ) : Option Cell :=
  ((scanGoal w h).foldl (goalStep g sx sy) (none, -1)).1

/-- Invariant of the goal-search fold after processing prefix `P`: either
nothing was found and `P` holds no air cell, or the accumulator holds the
first maximal-score air cell of `P`: every air cell before it scores
strictly less, every air cell after it scores no more. -/
def GoalInv (g : Grid) (sx sy : ℤ) (P : List Cell) (acc : Option Cell × ℤ) : Prop :=
  (acc = (none, -1) ∧ ∀ q ∈ P, ¬ g q = T_AIR) ∨
  (∃ p P1 P2, P = P1 ++ p :: P2 ∧ acc = (some p, goalScore sx sy p) ∧ g p = T_AIR ∧
    (∀ q ∈ P1, g q = T_AIR → goalScore sx sy q < goalScore sx sy p) ∧
    (∀ q ∈ P2, g q = T_AIR → goalScore sx sy q ≤ goalScore sx sy p))

/-- `_step8_spawn_goal`, parameterised by the write primitive `W` used
for its two unguarded NumPy writes (the spawn write at
`surface_line[spawn_x] - 1` and the goal write). -/
def step8_spawn_goal (cfg : BlueprintConfig) (W : Grid → ℤ → ℤ → Tile → Grid)
    (st : GenState) : GenState :=
  let spawnX := selectSpawnX cfg st.surface
  let spawnY := st.surface spawnX - 1
  let g1 := W st.grid spawnX spawnY T_SPAWN
  let g2 := match selectGoal cfg.width cfg.height g1 spawnX spawnY with
    | some p => W g1 p.1 p.2 T_GOAL
    | none => g1
  { st with grid := g2 }

/-! ## Step 9: top detection (source lines 395-401) -/

/-- The vectorised derived-tile pass: any in-bounds cell of row `1 ..`
holding `T_FILL` with `T_AIR` directly above becomes `T_TOP`; the mask is
computed from the input grid, so the pass is simultaneous. -/
def step9Grid (w h : ℕ) (g : Grid) : Grid := fun p =>
  if 0 ≤ p.1 ∧ p.1 < (w : ℤ) ∧ 1 ≤ p.2 ∧ p.2 < (h : ℤ) ∧
      g p = T_FILL ∧ g (p.1, p.2 - 1) = T_AIR
  then T_TOP else g p

def step9_top (cfg : BlueprintConfig) (st : GenState) : GenState :=
  { st with grid := step9Grid cfg.width cfg.height st.grid }

/-! ## The full pipeline (source lines 77-88) -/

/-- `generate()`, parameterised by the write primitive used for the two
unguarded step-8 writes. -/
def generateCore (ic : (ℕ → ℚ) → ℤ → ℤ → Bool) (choice : ℕ → ℕ → ℕ → List ℕ)
    (W : Grid → ℤ → ℤ → Tile → Grid) (cfg : BlueprintConfig) (s : Stream)
    (fuel : ℕ) : GenState :=
  step9_top cfg (step8_spawn_goal cfg W (step7_entry cfg (step6_connect cfg choice
    (step5_filter cfg (step4_caves cfg s ic (step3_tunnels cfg s fuel
      (step2_surface cfg s (step1_init mkState))))))))

/-- The pipeline exactly as the source runs it: the two unguarded step-8
writes use NumPy index semantics (negative indices wrap around). -/
def generate (ic : (ℕ → ℚ) → ℤ → ℤ → Bool) (choice : ℕ → ℕ → ℕ → List ℕ)
    (cfg : BlueprintConfig) (s : Stream) (fuel : ℕ) : GenState :=
  generateCore ic choice (npSet cfg.width cfg.height) cfg s fuel

/-- Modelled from the spec: the same pipeline under the spec's stated
error-handling discipline ("writes outside the grid are silently no-ops
rather than faults"), i.e. with the two unguarded step-8 writes replaced
by bounds-checked writes.  Used to compare the source behaviour against
the spec's words for claim C4. -/
def generateSpecWrites (ic : (ℕ → ℚ) → ℤ → ℤ → Bool) (choice : ℕ → ℕ → ℕ → List ℕ)
    (cfg : BlueprintConfig) (s : Stream) (fuel : ℕ) : GenState :=
  generateCore ic choice (setIn cfg.width cfg.height) cfg s fuel

/-! ## Connectivity of air regions -/

/-- Two cells are adjacent air cells: both in bounds, both `T_AIR`, at
Manhattan distance 1 (the 4-neighbourhood used by every flood fill). -/
def adjC (w h : ℕ) (g : Grid) (p q : Cell) : Prop :=
  inB w h p ∧ inB w h q ∧ g p = T_AIR ∧ g q = T_AIR ∧ |p.1 - q.1| + |p.2 - q.2| = 1

/-- 4-connectivity of air cells. -/
def conn (w h : ℕ) (g : Grid) : Cell → Cell → Prop :=
  Relation.ReflTransGen (adjC w h g)

/-- The maximal 4-connected air region of `p`. -/
def component (w h : ℕ) (g : Grid) (p : Cell) : Set Cell :=
  {q | conn w h g p q}

/-- Position of a cell in the goal scan order (bottom-to-top,
row-major). -/
def scanIdx (w h : ℕ) (c : Cell) : ℤ := ((h : ℤ) - 1 - c.2) * (w : ℤ) + c.1

/-! ## Named intermediate pipeline states -/

def afterStep2 (cfg : BlueprintConfig) (s : Stream) : GenState :=
  step2_surface cfg s (step1_init mkState)

def afterStep4 (ic : (ℕ → ℚ) → ℤ → ℤ → Bool) (cfg : BlueprintConfig)
    (s : Stream) (fuel : ℕ) : GenState :=
  step4_caves cfg s ic (step3_tunnels cfg s fuel (afterStep2 cfg s))

def afterStep5 (ic : (ℕ → ℚ) → ℤ → ℤ → Bool) (cfg : BlueprintConfig)
    (s : Stream) (fuel : ℕ) : GenState :=
  step5_filter cfg (afterStep4 ic cfg s fuel)

def afterStep7 (ic : (ℕ → ℚ) → ℤ → ℤ → Bool) (choice : ℕ → ℕ → ℕ → List ℕ)
    (cfg : BlueprintConfig) (s : Stream) (fuel : ℕ) : GenState :=
  step7_entry cfg (step6_connect cfg choice (afterStep5 ic cfg s fuel))

/-- The state after step 8 of the real (NumPy-write) pipeline. -/
def afterStep8 (ic : (ℕ → ℚ) → ℤ → ℤ → Bool) (choice : ℕ → ℕ → ℕ → List ℕ)
    (cfg : BlueprintConfig) (s : Stream) (fuel : ℕ) : GenState :=
  step8_spawn_goal cfg (npSet cfg.width cfg.height) (afterStep7 ic choice cfg s fuel)

/-! ## Claim-level propositions -/

/-- Claim C3 as stated: whenever the goal search returns a cell, that
cell attains the maximal score and is the **last** maximal-score air cell
in the bottom-to-top row-major scan. -/
def GoalLastTieBreak (w h : ℕ) (g : Grid) (sx sy : ℤ) : Prop :=
  ∀ p, selectGoal w h g sx sy = some p →
    ∀ q, inB w h q → g q = T_AIR →
      goalScore sx sy q ≤ goalScore sx sy p ∧
      (goalScore sx sy q = goalScore sx sy p → scanIdx w h q ≤ scanIdx w h p)

/-- The corrected tie-break: the chosen cell attains the maximal score
and is the **first** maximal-score air cell in scan order. -/
def GoalFirstTieBreak (w h : ℕ) (g : Grid) (sx sy : ℤ) : Prop :=
  ∀ p, selectGoal w h g sx sy = some p →
    inB w h p ∧ g p = T_AIR ∧
    ∀ q, inB w h q → g q = T_AIR →
      goalScore sx sy q ≤ goalScore sx sy p ∧
      (goalScore sx sy q = goalScore sx sy p → scanIdx w h p ≤ scanIdx w h q)

/-- Claim C6's property of a finished state: exactly one `T_SPAWN` cell
exists and its row is within 2 of `surface_line[its column] - 1`. -/
def SpawnPlacementOK (st : GenState) : Prop :=
  ∃ p, st.grid p = T_SPAWN ∧ (∀ q, st.grid q = T_SPAWN → q = p) ∧
    |p.2 - (st.surface p.1 - 1)| ≤ 2

/-- The air cells of `g` form exactly one (nonempty) 4-connected
region. -/
def SingleAirRegion (w h : ℕ) (g : Grid) : Prop :=
  (∃ p, inB w h p ∧ g p = T_AIR) ∧
  ∀ p q, inB w h p → g p = T_AIR → inB w h q → g q = T_AIR → conn w h g p q

/-- `PW V g g0`: grid `g` agrees with `g0` except at cells holding a
value satisfying `V` — i.e. `g` was obtained from `g0` by writes of
`V`-values only. -/
def PW (V : Tile → Prop) (g g0 : Grid) : Prop :=
  ∀ p, g p = g0 p ∨ V (g p)

/-- The open-classified (walkable-or-open) tile kinds. -/
def openTile (t : Tile) : Prop :=
  t = T_AIR ∨ t = T_TOP ∨ t = T_SPAWN ∨ t = T_GOAL

/-! ## Concrete instances used by counterexamples and witnesses -/

def constStream (q : ℚ) : Stream := fun _ => q

/-- A cave-shape test (irrelevant to the concrete runs, which use zero
caves). -/
def icNone : (ℕ → ℚ) → ℤ → ℤ → Bool := fun _ _ _ => false

/-- A sampler (irrelevant to the concrete runs, which reach step 6 with
at most one air region). -/
def choiceNone : ℕ → ℕ → ℕ → List ℕ := fun _ _ _ => []

/-- A config whose surface is pinned to height 0: every column's surface
row is 0, so the spawn row `surface - 1 = -1` wraps around. -/
def cfgSurf0 : BlueprintConfig :=
  { seed := 0, width := 6, height := 4, surface_y_min := 0, surface_y_max := 0,
    surface_step_max := 2, num_tunnels := 0, tunnel_min_width := 1,
    tunnel_vertical_clearance := 1, tunnel_branch_chance := 15/100,
    num_caves := 0, cave_radius_min := 1, cave_radius_max := 1,
    cave_noise_strength := 0, min_region_size := 1 }

/-- A small healthy config (surface pinned to height 1). -/
def cfgSurf1 : BlueprintConfig :=
  { seed := 0, width := 6, height := 4, surface_y_min := 1, surface_y_max := 1,
    surface_step_max := 2, num_tunnels := 0, tunnel_min_width := 1,
    tunnel_vertical_clearance := 1, tunnel_branch_chance := 15/100,
    num_caves := 0, cave_radius_min := 1, cave_radius_max := 1,
    cave_noise_strength := 0, min_region_size := 1 }

/-- Config for the non-terminating-walk counterexample: `h = 10`, so the
walk runs while `y < 5`. -/
def cfgWalk : BlueprintConfig :=
  { seed := 0, width := 10, height := 10, surface_y_min := 0, surface_y_max := 0,
    surface_step_max := 2, num_tunnels := 1, tunnel_min_width := 3,
    tunnel_vertical_clearance := 3, tunnel_branch_chance := 15/100,
    num_caves := 0, cave_radius_min := 1, cave_radius_max := 1,
    cave_noise_strength := 0, min_region_size := 1 }

/-- Walk start state for the counterexample: start at `(5, 0)` on an
all-`T_FILL` grid. -/
def walkSt0 : WalkSt := ⟨fun _ => T_FILL, 5, 0, 0⟩

/-- 3 × 1 grid with a spawn in the middle: the two flanking air cells tie
on the goal score. -/
def gridTie : Grid := fun p => if p = ((1 : ℤ), (0 : ℤ)) then T_SPAWN else T_AIR

/-- Config for the C8 counterexample: `y ∈ [0, 1]`, `w = 3`, `h = 2`. -/
def cfgGap : BlueprintConfig :=
  { seed := 0, width := 3, height := 2, surface_y_min := 0, surface_y_max := 1,
    surface_step_max := 2, num_tunnels := 0, tunnel_min_width := 1,
    tunnel_vertical_clearance := 1, tunnel_branch_chance := 15/100,
    num_caves := 0, cave_radius_min := 1, cave_radius_max := 1,
    cave_noise_strength := 0, min_region_size := 1 }

/-- Stream driving `cfgGap`'s surface walk to heights `[1, 0, 1]`:
initial draw 1, then steps `+0`, `-1`, `+1`. -/
def streamGap : Stream := fun k =>
  if k = 0 then 1 else if k = 1 then 2 else if k = 2 then 1 else 3

/-- Config for C8's witness and the surviving-region witness: 3 × 2 grid
with surface pinned to height 1 (one air row). -/
def cfgRow : BlueprintConfig :=
  { seed := 0, width := 3, height := 2, surface_y_min := 1, surface_y_max := 1,
    surface_step_max := 2, num_tunnels := 0, tunnel_min_width := 1,
    tunnel_vertical_clearance := 1, tunnel_branch_chance := 15/100,
    num_caves := 0, cave_radius_min := 1, cave_radius_max := 1,
    cave_noise_strength := 0, min_region_size := 2 }

/-- An all-air generator state (used to witness the monotone-opener
claim). -/
def stAir : GenState := ⟨fun _ => T_AIR, fun _ => 1, 0⟩

/-- The in-bounds cells as a finite set (for the BFS termination
measure). -/
def bfsDomain (w h : ℕ) : Finset Cell :=
  ((Finset.range w) ×ˢ (Finset.range h)).image (fun q : ℕ × ℕ => ((q.1 : ℤ), (q.2 : ℤ)))

/-- BFS termination measure: unvisited in-bounds cells plus queue
length; each loop iteration strictly decreases it. -/
def bfsMeasure (w h : ℕ) (st : BfsSt) : ℕ :=
  ((bfsDomain w h).filter (fun p => st.vis p = false)).card + st.queue.length

/-- Loop invariant of the BFS flood fill from `start`: queue and region
hold air cells of `start`'s component without duplicates, the visited
map is exactly the initial one plus region and queue, and every popped
cell's air neighbours are visited. -/
structure BfsInv (w h : ℕ) (g : Grid) (start : Cell) (vis0 : Vis) (st : BfsSt) : Prop where
  qfacts : ∀ c ∈ st.queue, conn w h g start c ∧ inB w h c ∧ g c = T_AIR
  rfacts : ∀ c ∈ st.region, conn w h g start c ∧ inB w h c ∧ g c = T_AIR
  nodup : (st.region ++ st.queue).Nodup
  visEq : ∀ c, st.vis c = true ↔ (vis0 c = true ∨ c ∈ st.region ++ st.queue)
  closed : ∀ a ∈ st.region, ∀ b, adjC w h g a b → st.vis b = true

/-- Invariant of the region-filter scan: `vis` is a union of full air
components of the pre-filter grid `g0`, the current grid is `g0` with
exactly the small visited components filled back, and every processed
air cell is visited. -/
def FiltInv (w h : ℕ) (g0 : Grid) (k : ℕ) (processed : List Cell) (a : Grid × Vis) : Prop :=
  (∀ p, a.2 p = true → inB w h p ∧ g0 p = T_AIR ∧ (∀ q, conn w h g0 p q → a.2 q = true)) ∧
  (∀ p, a.2 p = true → (component w h g0 p).ncard < k → a.1 p = T_FILL) ∧
  (∀ p, ¬ (a.2 p = true ∧ (component w h g0 p).ncard < k) → a.1 p = g0 p) ∧
  (∀ c ∈ processed, inB w h c → g0 c = T_AIR → a.2 c = true)

/-! # Lemmas: write discipline of the carving stages -/

theorem pw_refl (V : Tile → Prop) (g : Grid) : PW V g g := fun _ => Or.inl rfl

theorem pw_trans {V : Tile → Prop} {g0 g1 g2 : Grid}
    (h1 : PW V g1 g0) (h2 : PW V g2 g1) : PW V g2 g0 := by
  intro p
  rcases h2 p with h | h
  · rw [h]; exact h1 p
  · exact Or.inr h

theorem pw_mono {V W : Tile → Prop} (hVW : ∀ t, V t → W t) {g g0 : Grid}
    (h : PW V g g0) : PW W g g0 := by
  intro p
  rcases h p with h | h
  · exact Or.inl h
  · exact Or.inr (hVW _ h)

theorem setIn_pw (V : Tile → Prop) (w h : ℕ) (g : Grid) (x y : ℤ) (v : Tile)
    (hv : V v) : PW V (setIn w h g x y v) g := by
  intro p
  unfold setIn
  by_cases hb : inB w h (x, y)
  · rw [if_pos hb]
    by_cases hp : p = (x, y)
    · rw [if_pos hp]; exact Or.inr hv
    · rw [if_neg hp]; exact Or.inl rfl
  · rw [if_neg hb]; exact Or.inl rfl

theorem npSet_pw (V : Tile → Prop) (w h : ℕ) (g : Grid) (x y : ℤ) (v : Tile)
    (hv : V v) : PW V (npSet w h g x y v) g := by
  intro p
  unfold npSet
  cases npIndex w x with
  | none => exact Or.inl rfl
  | some a =>
    cases npIndex h y with
    | none => exact Or.inl rfl
    | some b =>
      by_cases hp : p = (a, b)
      · right; show V (if p = (a, b) then v else g p); rw [if_pos hp]; exact hv
      · left; show (if p = (a, b) then v else g p) = g p; rw [if_neg hp]

/-- A fold whose every step only performs `V`-writes (seen through the
projection `f` onto the grid) only performs `V`-writes overall. -/
theorem foldl_pw {σ β : Type} (V : Tile → Prop) (f : σ → Grid) (g : σ → β → σ)
    (hf : ∀ st b, PW V (f (g st b)) (f st)) :
    ∀ (l : List β) (st : σ), PW V (f (l.foldl g st)) (f st) := by
  intro l
  induction l with
  | nil => intro st; exact pw_refl V _
  | cons b t ih =>
    intro st
    exact pw_trans (hf st b) (ih (g st b))

theorem carveCol_pw (w h : ℕ) (g : Grid) (x y : ℤ) :
    PW (fun t => t = T_AIR) (carveCol w h g x y) g :=
  foldl_pw (fun t => t = T_AIR) (fun g : Grid => g) _
    (fun st r => setIn_pw _ w h st x r T_AIR rfl) _ g

theorem carveCross_pw (cfg : BlueprintConfig) (g : Grid) (x y : ℤ) :
    PW (fun t => t = T_AIR) (carveCross cfg g x y) g :=
  foldl_pw (fun t => t = T_AIR) (fun g : Grid => g) _
    (fun g1 dx => foldl_pw (fun t => t = T_AIR) (fun g : Grid => g) _
      (fun g2 dy => setIn_pw _ _ _ g2 _ _ T_AIR rfl) _ g1) _ g

theorem branchRun_pw (cfg : BlueprintConfig) (s : Stream) (dir : ℤ) :
    ∀ (n : ℕ) (st : BranchSt),
      PW (fun t => t = T_AIR) (branchRun cfg s dir n st).grid st.grid := by
  intro n
  induction n with
  | zero => intro st; exact pw_refl _ _
  | succ n ih =>
    intro st
    show PW _ (branchRun cfg s dir (n + 1) st).grid st.grid
    rw [branchRun]
    split_ifs <;>
      first
        | exact carveCross_pw cfg st.grid st.bx st.yb
        | exact pw_trans (carveCross_pw cfg st.grid st.bx st.yb) (ih _)

theorem walkBody_pw (cfg : BlueprintConfig) (s : Stream) (st : WalkSt) :
    PW (fun t => t = T_AIR) (walkBody cfg s st).grid st.grid := by
  rw [walkBody]
  split_ifs <;>
    first
      | exact carveCross_pw cfg st.grid st.x st.y
      | exact pw_trans (carveCross_pw cfg st.grid st.x st.y) (branchRun_pw cfg s _ _ _)

theorem walkRun_pw (cfg : BlueprintConfig) (s : Stream) :
    ∀ (n : ℕ) (st : WalkSt),
      PW (fun t => t = T_AIR) (walkRun cfg s n st).grid st.grid := by
  intro n
  induction n with
  | zero => intro st; exact pw_refl _ _
  | succ n ih =>
    intro st
    show PW _ (walkRun cfg s (n + 1) st).grid st.grid
    rw [walkRun]
    split
    · exact pw_trans (walkBody_pw cfg s st) (ih _)
    · exact pw_refl _ _

theorem step2_pw (cfg : BlueprintConfig) (s : Stream) (st : GenState) :
    PW (fun t => t = T_AIR) (step2_surface cfg s st).grid st.grid :=
  foldl_pw (fun t => t = T_AIR) SurfSt.grid (surfStep cfg s)
    (fun a x => carveCol_pw cfg.width cfg.height a.grid (x : ℤ) _) _ _

theorem step3_pw (cfg : BlueprintConfig) (s : Stream) (fuel : ℕ) (st : GenState) :
    PW (fun t => t = T_AIR) (step3_tunnels cfg s fuel st).grid st.grid :=
  foldl_pw (fun t => t = T_AIR) (fun a : Grid × ℕ => a.1)
    (fun a sx => carveTunnel cfg s fuel a.1 st.surface sx a.2)
    (fun a sx => walkRun_pw cfg s fuel ⟨a.1, sx, st.surface sx, a.2⟩) _ _

theorem caveStep_pw (cfg : BlueprintConfig) (s : Stream)
    (ic : (ℕ → ℚ) → ℤ → ℤ → Bool) (sMax : ℤ) (a : Grid × ℕ) :
    PW (fun t => t = T_AIR) (caveStep cfg s ic sMax a).1 a.1 := by
  refine foldl_pw (fun t => t = T_AIR) (fun g : Grid => g) _ ?_ _ a.1
  intro g1 y
  refine foldl_pw (fun t => t = T_AIR) (fun g : Grid => g) _ ?_ _ g1
  intro g2 x
  dsimp only []
  split
  · exact setIn_pw _ _ _ g2 _ _ T_AIR rfl
  · exact pw_refl _ _

theorem step4_pw (cfg : BlueprintConfig) (s : Stream)
    (ic : (ℕ → ℚ) → ℤ → ℤ → Bool) (st : GenState) :
    PW (fun t => t = T_AIR) (step4_caves cfg s ic st).grid st.grid :=
  foldl_pw (fun t => t = T_AIR) (fun a : Grid × ℕ => a.1) _
    (fun a _ => caveStep_pw cfg s ic _ a) _ _

theorem fillCells_pw (w h : ℕ) (g : Grid) (l : List Cell) :
    PW (fun t => t = T_FILL) (fillCells w h g l) g := by
  unfold fillCells
  exact foldl_pw (fun t => t = T_FILL) (fun g : Grid => g) _
    (fun g1 q => setIn_pw _ w h g1 q.1 q.2 T_FILL rfl) l g

theorem filterStep_pw (cfg : BlueprintConfig) (a : Grid × Vis) (c : Cell) :
    PW (fun t => t = T_FILL) (filterStep cfg a c).1 a.1 := by
  rw [filterStep]
  split
  · dsimp only []
    split
    · exact fillCells_pw cfg.width cfg.height a.1 _
    · exact pw_refl _ _
  · exact pw_refl _ _

theorem step5_pw (cfg : BlueprintConfig) (st : GenState) :
    PW (fun t => t = T_FILL) (step5_filter cfg st).grid st.grid :=
  foldl_pw (fun t => t = T_FILL) (fun a : Grid × Vis => a.1) (filterStep cfg)
    (fun a c => filterStep_pw cfg a c) _ _

theorem carveL_pw (cfg : BlueprintConfig) (g : Grid) (a b : Cell) :
    PW (fun t => t = T_AIR) (carveL cfg g a b) g := by
  refine @pw_trans (fun t => t = T_AIR) g
    ((rangeZ (min a.1 b.1) (max a.1 b.1 + 1)).foldl (fun gh x =>
      (rangeZ (-(halfOf cfg : ℤ)) ((halfOf cfg : ℤ) + 1)).foldl (fun gh2 dy =>
        setIn cfg.width cfg.height gh2 x (a.2 + dy) T_AIR) gh) g)
    (carveL cfg g a b) ?_ ?_
  · exact foldl_pw (fun t => t = T_AIR) (fun g : Grid => g) _
      (fun gh x => foldl_pw (fun t => t = T_AIR) (fun g : Grid => g) _
        (fun gh2 dy => setIn_pw _ _ _ gh2 _ _ T_AIR rfl) _ gh) _ g
  · exact foldl_pw (fun t => t = T_AIR) (fun g : Grid => g) _
      (fun gv y => foldl_pw (fun t => t = T_AIR) (fun g : Grid => g) _
        (fun gv2 dx => setIn_pw _ _ _ gv2 _ _ T_AIR rfl) _ gv) _ _

theorem connectStep_pw (cfg : BlueprintConfig) (choice : ℕ → ℕ → ℕ → List ℕ)
    (sIdx : ℕ) (a : List Cell × Grid × ℕ) (ir : ℕ × List Cell) :
    PW (fun t => t = T_AIR) (connectStep cfg choice sIdx a ir).2.1 a.2.1 := by
  rw [connectStep]
  split
  · exact pw_refl _ _
  · dsimp only []
    split
    · exact pw_refl _ _
    · exact carveL_pw cfg a.2.1 _ _

theorem step6_pw (cfg : BlueprintConfig) (choice : ℕ → ℕ → ℕ → List ℕ)
    (st : GenState) :
    PW (fun t => t = T_AIR) (step6_connect cfg choice st).grid st.grid := by
  rw [step6_connect]
  split
  · exact pw_refl _ _
  · exact foldl_pw (fun t => t = T_AIR) (fun a : List Cell × Grid × ℕ => a.2.1)
      (connectStep cfg choice _) (fun a ir => connectStep_pw cfg choice _ a ir) _ _

theorem step7_pw (cfg : BlueprintConfig) (st : GenState) :
    PW (fun t => t = T_AIR) (step7_entry cfg st).grid st.grid := by
  rw [step7_entry]
  split
  · exact pw_refl _ _
  · exact foldl_pw (fun t => t = T_AIR) (fun g : Grid => g) _
      (fun g1 y => foldl_pw (fun t => t = T_AIR) (fun g : Grid => g) _
        (fun g2 dx => setIn_pw _ _ _ g2 _ _ T_AIR rfl) _ g1) _ st.grid

/-! # Claim C9: idempotence of the top-tile deriver -/

/-- C9: the Top-Tile Deriver is idempotent: for every grid (and every
grid geometry), applying the derivation pass of `_step9_top_detection`
(`T_FILL` with `T_AIR` directly above becomes `T_TOP`) twice yields the
same grid as applying it once. -/
theorem step9_idempotent (w h : ℕ) (g : Grid) :
    step9Grid w h (step9Grid w h g) = step9Grid w h g := by
  funext p
  by_cases h1 : 0 ≤ p.1 ∧ p.1 < (w : ℤ) ∧ 1 ≤ p.2 ∧ p.2 < (h : ℤ) ∧
      step9Grid w h g p = T_FILL ∧ step9Grid w h g (p.1, p.2 - 1) = T_AIR
  · exfalso
    obtain ⟨b1, b2, b3, b4, hf, ha⟩ := h1
    rw [step9Grid] at hf ha
    by_cases hcp : 0 ≤ p.1 ∧ p.1 < (w : ℤ) ∧ 1 ≤ p.2 ∧ p.2 < (h : ℤ) ∧
        g p = T_FILL ∧ g (p.1, p.2 - 1) = T_AIR
    · rw [if_pos hcp] at hf
      exact absurd hf (by decide)
    · rw [if_neg hcp] at hf
      by_cases hca : 0 ≤ p.1 ∧ p.1 < (w : ℤ) ∧ 1 ≤ (p.1, p.2 - 1).2 ∧
          (p.1, p.2 - 1).2 < (h : ℤ) ∧ g (p.1, p.2 - 1) = T_FILL ∧
          g ((p.1, p.2 - 1).1, (p.1, p.2 - 1).2 - 1) = T_AIR
      · rw [if_pos hca] at ha
        exact absurd ha (by decide)
      · rw [if_neg hca] at ha
        exact hcp ⟨b1, b2, b3, b4, hf, ha⟩
  · conv_lhs => rw [step9Grid]
    rw [if_neg h1]

/-! # Claim C1: determinism of the full pipeline -/

/-- C1: the embedded pipeline is a pure function of the `Config`, the
seed-determined rng stream and the (deterministic) float/sampler
abstractions: two independent runs of `generate` from the same `Config`
and seed stream produce bit-identical grids and identical surface
lines.  (There is no hidden state in the embedding, mirroring the
source, whose only stateful inputs are the seeded `default_rng` and the
freshly allocated grid.) -/
theorem generate_deterministic (ic : (ℕ → ℚ) → ℤ → ℤ → Bool)
    (choice : ℕ → ℕ → ℕ → List ℕ) (seedStream : ℕ → Stream)
    (cfg : BlueprintConfig) (fuel : ℕ) :
    (generate ic choice cfg (seedStream cfg.seed) fuel).grid
      = (generate ic choice cfg (seedStream cfg.seed) fuel).grid ∧
    (generate ic choice cfg (seedStream cfg.seed) fuel).surface
      = (generate ic choice cfg (seedStream cfg.seed) fuel).surface :=
  ⟨rfl, rfl⟩

/-! # Claim C10: the carving stages are monotone openers -/

/-- C10: tunnel carving (step 3), cave carving (step 4), L-tunnel
connectivity repair (step 6) and the entry-check shaft (step 7) write
only `T_AIR`: a cell that is `T_AIR` before any of these stages is still
`T_AIR` after it, for every config, stream, fuel and state. -/
theorem carving_stages_monotone_open (cfg : BlueprintConfig) (s : Stream)
    (fuel : ℕ) (ic : (ℕ → ℚ) → ℤ → ℤ → Bool) (choice : ℕ → ℕ → ℕ → List ℕ)
    (st : GenState) (p : Cell) (hair : st.grid p = T_AIR) :
    (step3_tunnels cfg s fuel st).grid p = T_AIR ∧
    (step4_caves cfg s ic st).grid p = T_AIR ∧
    (step6_connect cfg choice st).grid p = T_AIR ∧
    (step7_entry cfg st).grid p = T_AIR := by
  refine ⟨?_, ?_, ?_, ?_⟩
  · rcases step3_pw cfg s fuel st p with h | h
    · rw [h, hair]
    · exact h
  · rcases step4_pw cfg s ic st p with h | h
    · rw [h, hair]
    · exact h
  · rcases step6_pw cfg choice st p with h | h
    · rw [h, hair]
    · exact h
  · rcases step7_pw cfg st p with h | h
    · rw [h, hair]
    · exact h

/-- Witness for C10 at a concrete state, config and stream. -/
theorem carving_stages_monotone_open_witness :
    stAir.grid ((2 : ℤ), (2 : ℤ)) = T_AIR ∧
    (step3_tunnels cfgSurf1 (constStream 0) 1 stAir).grid ((2 : ℤ), (2 : ℤ)) = T_AIR ∧
    (step4_caves cfgSurf1 (constStream 0) icNone stAir).grid ((2 : ℤ), (2 : ℤ)) = T_AIR ∧
    (step6_connect cfgSurf1 choiceNone stAir).grid ((2 : ℤ), (2 : ℤ)) = T_AIR ∧
    (step7_entry cfgSurf1 stAir).grid ((2 : ℤ), (2 : ℤ)) = T_AIR := by
  refine ⟨rfl, ?_⟩
  exact carving_stages_monotone_open cfgSurf1 (constStream 0) 1 icNone choiceNone
    stAir ((2 : ℤ), (2 : ℤ)) rfl

/-! # Claim C2: termination of the tunnel walk -/

theorem walkBody_y_mono (cfg : BlueprintConfig) (s : Stream) (st : WalkSt) :
    st.y ≤ (walkBody cfg s st).y := by
  rw [walkBody]
  split_ifs <;> dsimp only [] <;> omega

theorem walkBody_y_succ (cfg : BlueprintConfig) (s : Stream) (st : WalkSt)
    (h : rnd s st.idx < 3/5) : st.y + 1 ≤ (walkBody cfg s st).y := by
  rw [walkBody]
  rw [if_pos h, if_pos h]
  split_ifs <;> dsimp only [] <;> omega

/-- Unfolding `walkIter` from the back. -/
theorem walkIter_succ_back (cfg : BlueprintConfig) (s : Stream) :
    ∀ (n : ℕ) (st : WalkSt),
      walkIter cfg s (n + 1) st = walkBody cfg s (walkIter cfg s n st) := by
  intro n
  induction n with
  | zero => intro st; rfl
  | succ n ih =>
    intro st
    show walkIter cfg s (n + 1) (walkBody cfg s st) = _
    rw [ih (walkBody cfg s st)]
    rfl

theorem walkIter_y_mono (cfg : BlueprintConfig) (s : Stream) (st : WalkSt) :
    ∀ {m n : ℕ}, m ≤ n →
      (walkIter cfg s m st).y ≤ (walkIter cfg s n st).y := by
  intro m n hmn
  induction n with
  | zero => rw [Nat.le_zero.mp hmn]
  | succ n ih =>
    rcases Nat.lt_or_ge m (n + 1) with hlt | hge
    · calc (walkIter cfg s m st).y ≤ (walkIter cfg s n st).y := ih (Nat.lt_succ_iff.mp hlt)
        _ ≤ (walkIter cfg s (n + 1) st).y := by
            rw [walkIter_succ_back]; exact walkBody_y_mono cfg s _
    · rw [Nat.le_antisymm hmn hge]

/-- As long as the guard `y < h - 5` has not failed, the fueled loop
agrees with the unconditional iteration of its body. -/
theorem walkRun_eq_walkIter (cfg : BlueprintConfig) (s : Stream) :
    ∀ (n : ℕ) (st : WalkSt),
      (∀ m, m < n → (walkIter cfg s m st).y < (cfg.height : ℤ) - 5) →
      walkRun cfg s n st = walkIter cfg s n st := by
  intro n
  induction n with
  | zero =>
    intro st _
    rfl
  | succ n ih =>
    intro st hg
    have h0 : st.y < (cfg.height : ℤ) - 5 := hg 0 (Nat.succ_pos n)
    show (if st.y < (cfg.height : ℤ) - 5 then
        walkRun cfg s n (walkBody cfg s st) else st)
      = walkIter cfg s (n + 1) st
    rw [if_pos h0]
    exact ih (walkBody cfg s st) (fun m hm => hg (m + 1) (Nat.succ_lt_succ hm))

/-- If the guard fails after `n` unconditional body iterations, the
fueled loop itself exits with the guard false. -/
theorem walkRun_exit_of_walkIter (cfg : BlueprintConfig) (s : Stream) :
    ∀ (n : ℕ) (st : WalkSt),
      ¬ (walkIter cfg s n st).y < (cfg.height : ℤ) - 5 →
      WalkTerminates cfg s st := by
  intro n
  induction n with
  | zero =>
    intro st h
    exact ⟨0, h⟩
  | succ n ih =>
    intro st h
    by_cases hg : st.y < (cfg.height : ℤ) - 5
    · obtain ⟨m, hm⟩ := ih (walkBody cfg s st) h
      refine ⟨m + 1, ?_⟩
      show ¬ (if st.y < (cfg.height : ℤ) - 5 then
          walkRun cfg s m (walkBody cfg s st) else st).y < (cfg.height : ℤ) - 5
      rw [if_pos hg]
      exact hm
    · exact ⟨0, hg⟩

/-- C2, corrected: the walk's depth `y` never decreases and strictly
increases whenever the direction draw is below 0.6, so the
tunnel-carving walk (the fueled `while y < h - 5` loop itself exits
with its guard false) terminates for every rng stream whose direction
draws fall below 0.6 infinitely often (in particular almost surely for
a real rng) — though not for every stream (see the counterexample). -/
theorem walk_terminates_of_infinitely_many_down (cfg : BlueprintConfig)
    (s : Stream) (st : WalkSt)
    (H : ∀ k, ∃ n, k ≤ n ∧ rnd s ((walkIter cfg s n st).idx) < 3/5) :
    WalkTerminates cfg s st := by
  have key : ∀ m : ℕ, ∃ n, st.y + m ≤ (walkIter cfg s n st).y := by
    intro m
    induction m with
    | zero => exact ⟨0, by simp [walkIter]⟩
    | succ m ih =>
      obtain ⟨n, hn⟩ := ih
      obtain ⟨n', hn'ge, hdraw⟩ := H n
      refine ⟨n' + 1, ?_⟩
      have h1 : (walkIter cfg s n st).y ≤ (walkIter cfg s n' st).y :=
        walkIter_y_mono cfg s st hn'ge
      have h2 : (walkIter cfg s n' st).y + 1 ≤ (walkIter cfg s (n' + 1) st).y := by
        rw [walkIter_succ_back]
        exact walkBody_y_succ cfg s _ hdraw
      omega
  obtain ⟨n, hn⟩ := key ((cfg.height : ℤ) - 5 - st.y).toNat
  refine walkRun_exit_of_walkIter cfg s n st ?_
  have := Int.self_le_toNat ((cfg.height : ℤ) - 5 - st.y)
  omega

/-- Witness for the corrected C2: on the all-zero stream every direction
draw is `0 < 3/5`, and the walk from `walkSt0` indeed terminates. -/
theorem walk_terminates_witness :
    WalkTerminates cfgWalk (constStream 0) walkSt0 := by
  refine walk_terminates_of_infinitely_many_down cfgWalk (constStream 0) walkSt0 ?_
  intro k
  refine ⟨k, le_refl k, ?_⟩
  show Int.fract ((0 : ℚ)) < 3/5
  rw [Int.fract_zero]
  norm_num

/-- Every draw of the constant-0.9 stream is 0.9. -/
theorem rnd_const_nine (i : ℕ) : rnd (constStream (9/10)) i = 9/10 := by
  show Int.fract ((9/10 : ℚ)) = 9/10
  rw [Int.fract_eq_self]
  constructor <;> norm_num

/-- On the constant-0.9 stream the walk body never advances `y`: the
direction draw takes the `x + 1` branch, the extra-step draw fails and
no branch spawns. -/
theorem walkBody_const_nine (st : WalkSt) :
    (walkBody cfgWalk (constStream (9/10)) st).y = st.y := by
  rw [walkBody]
  simp only [rnd_const_nine]
  rw [if_neg (by norm_num : ¬ (9/10 : ℚ) < 3/5),
    if_neg (by norm_num : ¬ (9/10 : ℚ) < 3/10),
    if_neg (by norm_num : ¬ (9/10 : ℚ) < 4/5)]
  rw [if_neg ?hc]
  case hc =>
    rintro ⟨hlt, -⟩
    rw [show cfgWalk.tunnel_branch_chance = 15/100 from rfl] at hlt
    norm_num at hlt

theorem walkIter_const_nine (n : ℕ) :
    (walkIter cfgWalk (constStream (9/10)) n walkSt0).y = 0 := by
  induction n with
  | zero => rfl
  | succ n ih => rw [walkIter_succ_back, walkBody_const_nine, ih]

/-- Counterexample to C2 as stated: on the constant-0.9 rng stream the
`while y < height - 5` walk never advances `y`, so for no amount of
fuel does the loop exit with its guard false — the tunnel-carving walk
does **not** terminate for every input rng stream. -/
theorem walk_nonterminating_cex :
    ¬ WalkTerminates cfgWalk (constStream (9/10)) walkSt0 := by
  rintro ⟨n, hn⟩
  have hg : ∀ m, m < n →
      (walkIter cfgWalk (constStream (9/10)) m walkSt0).y
        < (cfgWalk.height : ℤ) - 5 := by
    intro m _
    rw [walkIter_const_nine m]
    decide
  rw [walkRun_eq_walkIter cfgWalk (constStream (9/10)) n walkSt0 hg] at hn
  rw [walkIter_const_nine n] at hn
  exact hn (by decide)

/-! # Claim C3: goal-selection tie-breaking -/

theorem mem_scanGoal (w h : ℕ) (p : Cell) :
    p ∈ scanGoal w h ↔ inB w h p := by
  unfold scanGoal inB
  rw [List.mem_flatMap]
  constructor
  · rintro ⟨y, hy, hp⟩
    rw [List.mem_reverse, List.mem_range] at hy
    rw [List.mem_map] at hp
    obtain ⟨x, hx, rfl⟩ := hp
    rw [List.mem_range] at hx
    refine ⟨?_, ?_, ?_, ?_⟩ <;> dsimp only [] <;> omega
  · rintro ⟨h1, h2, h3, h4⟩
    refine ⟨p.2.toNat, ?_, ?_⟩
    · rw [List.mem_reverse, List.mem_range]; omega
    · rw [List.mem_map]
      refine ⟨p.1.toNat, by rw [List.mem_range]; omega, ?_⟩
      rw [Int.toNat_of_nonneg h1, Int.toNat_of_nonneg h3]

theorem scanGoal_pairwise (w h : ℕ) :
    (scanGoal w h).Pairwise (fun a b => scanIdx w h a < scanIdx w h b) := by
  unfold scanGoal
  have key : ∀ ys : List ℕ, ys.Pairwise (fun a b => b < a) →
      (ys.flatMap (fun y : ℕ => (List.range w).map (fun x : ℕ => ((x : ℤ), (y : ℤ))))).Pairwise
        (fun a b => scanIdx w h a < scanIdx w h b) := by
    intro ys
    induction ys with
    | nil => intro _; simp
    | cons y ys ih =>
      intro hpw
      rw [List.pairwise_cons] at hpw
      rw [List.flatMap_cons, List.pairwise_append]
      refine ⟨?_, ih hpw.2, ?_⟩
      · rw [List.pairwise_map]
        refine (List.pairwise_lt_range w).imp ?_
        intro x1 x2 hx
        unfold scanIdx
        simp only []
        omega
      · intro a ha b hb
        rw [List.mem_map] at ha
        obtain ⟨x1, hx1, rfl⟩ := ha
        rw [List.mem_flatMap] at hb
        obtain ⟨y', hy', hb⟩ := hb
        rw [List.mem_map] at hb
        obtain ⟨x2, hx2, rfl⟩ := hb
        have hyy : y' < y := hpw.1 y' hy'
        unfold scanIdx
        simp only []
        rw [List.mem_range] at hx1
        have hA : ((h : ℤ) - 1 - y) + 1 ≤ (h : ℤ) - 1 - y' := by omega
        have hx1' : (x1 : ℤ) < (w : ℤ) := by exact_mod_cast hx1
        calc ((h : ℤ) - 1 - y) * w + x1
            < ((h : ℤ) - 1 - y) * w + w := add_lt_add_left hx1' _
          _ = (((h : ℤ) - 1 - y) + 1) * w := by ring
          _ ≤ ((h : ℤ) - 1 - y') * w := by
              exact mul_le_mul_of_nonneg_right hA (by positivity)
          _ ≤ ((h : ℤ) - 1 - y') * w + x2 := le_add_of_nonneg_right (by positivity)
  refine key _ ?_
  rw [List.pairwise_reverse]
  exact (List.pairwise_lt_range h).imp (fun hab => hab)

theorem goalScore_nonneg (sx sy : ℤ) (c : Cell) (hc : 0 ≤ c.2) :
    0 ≤ goalScore sx sy c := by
  unfold goalScore
  have := abs_nonneg (c.1 - sx)
  have := abs_nonneg (c.2 - sy)
  omega

theorem goalInv_foldl (g : Grid) (sx sy : ℤ) :
    ∀ (L P : List Cell) (acc : Option Cell × ℤ),
      (∀ c ∈ L, 0 ≤ c.2) → GoalInv g sx sy P acc →
      GoalInv g sx sy (P ++ L) (L.foldl (goalStep g sx sy) acc) := by
  intro L
  induction L with
  | nil => intro P acc _ hI; simpa using hI
  | cons c L ih =>
    intro P acc hL hI
    have hstep : GoalInv g sx sy (P ++ [c]) (goalStep g sx sy acc c) := by
      rcases hI with ⟨hacc, hnone⟩ | ⟨p, P1, P2, hsplit, hacc, hairp, h1, h2⟩
      · unfold goalStep
        rw [hacc]
        by_cases hc : g c = T_AIR ∧ (-1 : ℤ) < goalScore sx sy c
        · rw [if_pos hc]
          refine Or.inr ⟨c, P, [], by simp, rfl, hc.1, ?_, by simp⟩
          intro q hq hair
          exact absurd hair (hnone q hq)
        · rw [if_neg hc]
          refine Or.inl ⟨rfl, ?_⟩
          intro q hq
          rw [List.mem_append] at hq
          rcases hq with hq | hq
          · exact hnone q hq
          · rw [List.mem_singleton] at hq
            rw [hq]
            intro hair
            refine hc ⟨hair, ?_⟩
            have := goalScore_nonneg sx sy c (hL c (List.mem_cons_self c L))
            omega
      · unfold goalStep
        rw [hacc]
        by_cases hc : g c = T_AIR ∧ goalScore sx sy p < goalScore sx sy c
        · rw [if_pos hc]
          refine Or.inr ⟨c, P, [], by simp, rfl, hc.1, ?_, by simp⟩
          intro q hq hair
          rw [hsplit, List.mem_append] at hq
          rcases hq with hq | hq
          · exact lt_trans (h1 q hq hair) hc.2
          · rw [List.mem_cons] at hq
            rcases hq with rfl | hq
            · exact hc.2
            · exact lt_of_le_of_lt (h2 q hq hair) hc.2
        · rw [if_neg hc]
          refine Or.inr ⟨p, P1, P2 ++ [c], by rw [hsplit]; simp, rfl, hairp, h1, ?_⟩
          intro q hq hair
          rw [List.mem_append] at hq
          rcases hq with hq | hq
          · exact h2 q hq hair
          · rw [List.mem_singleton] at hq
            rw [hq] at hair ⊢
            by_contra hlt
            exact hc ⟨hair, by omega⟩
    have hre : P ++ c :: L = (P ++ [c]) ++ L := by simp
    rw [hre]
    exact ih (P ++ [c]) _ (fun d hd => hL d (List.mem_cons_of_mem c hd)) hstep

theorem scanGoal_y_nonneg (w h : ℕ) (c : Cell) (hc : c ∈ scanGoal w h) : 0 ≤ c.2 :=
  ((mem_scanGoal w h c).mp hc).2.2.1

/-- The goal search returns the first maximal-score air cell in the
bottom-to-top row-major scan: it attains the maximal score, and any
other air cell of equal score comes later in scan order. -/
theorem selectGoal_first_max (w h : ℕ) (g : Grid) (sx sy : ℤ) (p : Cell)
    (hp : selectGoal w h g sx sy = some p) :
    inB w h p ∧ g p = T_AIR ∧
    ∀ q, inB w h q → g q = T_AIR →
      goalScore sx sy q ≤ goalScore sx sy p ∧
      (goalScore sx sy q = goalScore sx sy p → scanIdx w h p ≤ scanIdx w h q) := by
  have hI := goalInv_foldl g sx sy (scanGoal w h) [] (none, -1)
    (scanGoal_y_nonneg w h) (Or.inl ⟨rfl, by simp⟩)
  rw [List.nil_append] at hI
  unfold selectGoal at hp
  rcases hI with ⟨hacc, -⟩ | ⟨p', P1, P2, hsplit, hacc, hairp, h1, h2⟩
  · rw [hacc] at hp
    exact absurd hp (by simp)
  · rw [hacc] at hp
    simp only [Option.some.injEq] at hp
    rw [hp] at hairp h1 h2 hsplit
    have hmem : p ∈ scanGoal w h := by
      rw [hsplit]
      exact List.mem_append_right P1 (List.mem_cons_self p P2)
    refine ⟨(mem_scanGoal w h p).mp hmem, hairp, ?_⟩
    intro q hqB hqair
    have hqmem : q ∈ scanGoal w h := (mem_scanGoal w h q).mpr hqB
    rw [hsplit] at hqmem
    have hpw := scanGoal_pairwise w h
    rw [hsplit, List.pairwise_append] at hpw
    rw [List.mem_append] at hqmem
    rcases hqmem with hq | hq
    · have hlt := h1 q hq hqair
      exact ⟨le_of_lt hlt, fun he => absurd he (by omega)⟩
    · rw [List.mem_cons] at hq
      rcases hq with rfl | hq
      · exact ⟨le_refl _, fun _ => le_refl _⟩
      · refine ⟨h2 q hq hqair, fun _ => ?_⟩
        have := (List.pairwise_cons.mp hpw.2.1).1 q hq
        exact le_of_lt this

/-- C3, corrected: among all air cells attaining the maximal score
`depth*2 + Manhattan distance from spawn`, the cell chosen as goal is the
one found **first** during the bottom-to-top row-major scan (the source
updates only on a strict `score > best` improvement, so ties keep the
earlier cell). -/
theorem goal_tie_break_first (w h : ℕ) (g : Grid) (sx sy : ℤ) :
    GoalFirstTieBreak w h g sx sy := by
  intro p hp
  exact selectGoal_first_max w h g sx sy p hp

/-- Witness for the corrected C3 on the concrete tie grid: the goal
search picks `(0,0)`, the first of the two tied maximal cells. -/
theorem goal_tie_break_first_witness :
    selectGoal 3 1 gridTie 1 0 = some ((0 : ℤ), (0 : ℤ)) ∧
    goalScore 1 0 ((2 : ℤ), (0 : ℤ)) ≤ goalScore 1 0 ((0 : ℤ), (0 : ℤ)) ∧
    scanIdx 3 1 ((0 : ℤ), (0 : ℤ)) ≤ scanIdx 3 1 ((2 : ℤ), (0 : ℤ)) := by
  have h := goal_tie_break_first 3 1 gridTie 1 0 ((0 : ℤ), (0 : ℤ)) (by decide)
  have h2 := h.2.2 ((2 : ℤ), (0 : ℤ)) (by decide) (by decide)
  exact ⟨by decide, h2.1, h2.2 (by decide)⟩

/-- Counterexample to C3 as stated: on `gridTie` the cells `(0,0)` and
`(2,0)` tie on the maximal score, and the goal search returns `(0,0)`,
the cell found *first* (not last) in the bottom-to-top row-major scan. -/
theorem goal_tie_break_last_cex : ¬ GoalLastTieBreak 3 1 gridTie 1 0 := by
  intro H
  have h := (H ((0 : ℤ), (0 : ℤ)) (by decide) ((2 : ℤ), (0 : ℤ))
    (by decide) (by decide)).2 (by decide)
  exact absurd h (by decide)

/-! # Value-range lemmas across the pipeline -/

theorem after7_air_or_fill (ic : (ℕ → ℚ) → ℤ → ℤ → Bool)
    (choice : ℕ → ℕ → ℕ → List ℕ) (cfg : BlueprintConfig) (s : Stream) (fuel : ℕ) :
    ∀ p, (afterStep7 ic choice cfg s fuel).grid p = T_AIR ∨
         (afterStep7 ic choice cfg s fuel).grid p = T_FILL := by
  have haf : ∀ t : Tile, t = T_AIR → (t = T_AIR ∨ t = T_FILL) := fun t ht => Or.inl ht
  have hff : ∀ t : Tile, t = T_FILL → (t = T_AIR ∨ t = T_FILL) := fun t ht => Or.inr ht
  have c2 := pw_mono haf (step2_pw cfg s (step1_init mkState))
  have c3 := pw_mono haf (step3_pw cfg s fuel (afterStep2 cfg s))
  have c4 := pw_mono haf (step4_pw cfg s ic (step3_tunnels cfg s fuel (afterStep2 cfg s)))
  have c5 := pw_mono hff (step5_pw cfg (afterStep4 ic cfg s fuel))
  have c6 := pw_mono haf (step6_pw cfg choice (afterStep5 ic cfg s fuel))
  have c7 := pw_mono haf (step7_pw cfg (step6_connect cfg choice (afterStep5 ic cfg s fuel)))
  have chain := pw_trans c2 (pw_trans c3 (pw_trans c4 (pw_trans c5 (pw_trans c6 c7))))
  unfold afterStep7
  intro p
  rcases chain p with hp | hp
  · rw [hp]; exact Or.inr rfl
  · exact hp

/-- `_step8_spawn_goal` writes only `T_SPAWN` and `T_GOAL`, for any write
primitive whose writes are confined to the written value. -/
theorem step8_pw (cfg : BlueprintConfig) (W : Grid → ℤ → ℤ → Tile → Grid)
    (hW : ∀ (g : Grid) (x y : ℤ) (v : Tile), PW (fun t => t = v) (W g x y v) g)
    (st : GenState) :
    PW (fun t => t = T_SPAWN ∨ t = T_GOAL) (step8_spawn_goal cfg W st).grid st.grid := by
  have hbase : PW (fun t => t = T_SPAWN ∨ t = T_GOAL)
      (W st.grid (selectSpawnX cfg st.surface)
        (st.surface (selectSpawnX cfg st.surface) - 1) T_SPAWN) st.grid :=
    pw_mono (fun t ht => Or.inl ht) (hW _ _ _ _)
  unfold step8_spawn_goal
  rcases hgoal : selectGoal cfg.width cfg.height
      (W st.grid (selectSpawnX cfg st.surface)
        (st.surface (selectSpawnX cfg st.surface) - 1) T_SPAWN)
      (selectSpawnX cfg st.surface)
      (st.surface (selectSpawnX cfg st.surface) - 1) with _ | p
  · simp only [hgoal]
    exact hbase
  · simp only [hgoal]
    exact pw_trans hbase (pw_mono (fun t ht => Or.inr ht) (hW _ _ _ _))

theorem after8_values (ic : (ℕ → ℚ) → ℤ → ℤ → Bool)
    (choice : ℕ → ℕ → ℕ → List ℕ) (cfg : BlueprintConfig) (s : Stream) (fuel : ℕ) :
    ∀ p, (afterStep8 ic choice cfg s fuel).grid p = T_AIR ∨
      (afterStep8 ic choice cfg s fuel).grid p = T_FILL ∨
      (afterStep8 ic choice cfg s fuel).grid p = T_SPAWN ∨
      (afterStep8 ic choice cfg s fuel).grid p = T_GOAL := by
  unfold afterStep8
  intro p
  have h8 := step8_pw cfg (npSet cfg.width cfg.height)
    (fun g x y v => npSet_pw _ cfg.width cfg.height g x y v rfl)
    (afterStep7 ic choice cfg s fuel)
  rcases h8 p with hp | hp
  · rw [hp]
    rcases after7_air_or_fill ic choice cfg s fuel p with h | h
    · exact Or.inl h
    · exact Or.inr (Or.inl h)
  · rcases hp with hp | hp
    · exact Or.inr (Or.inr (Or.inl hp))
    · exact Or.inr (Or.inr (Or.inr hp))

theorem after8_no_top (ic : (ℕ → ℚ) → ℤ → ℤ → Bool)
    (choice : ℕ → ℕ → ℕ → List ℕ) (cfg : BlueprintConfig) (s : Stream) (fuel : ℕ)
    (p : Cell) : ¬ (afterStep8 ic choice cfg s fuel).grid p = T_TOP := by
  intro hp
  rcases after8_values ic choice cfg s fuel p with h | h | h | h <;>
    rw [hp] at h <;> exact absurd h (by decide)

/-! # Claim C5: top tiles have open cells above -/

/-- The final grid is step 9 applied to the post-step-8 state. -/
theorem generate_eq_step9 (ic : (ℕ → ℚ) → ℤ → ℤ → Bool)
    (choice : ℕ → ℕ → ℕ → List ℕ) (cfg : BlueprintConfig) (s : Stream) (fuel : ℕ) :
    generate ic choice cfg s fuel = step9_top cfg (afterStep8 ic choice cfg s fuel) := rfl

/-- C5: after the full pipeline, every `T_TOP` cell sits at row ≥ 1 with
`T_AIR` (an open-classified kind) directly above it; moreover the
top-tile deriver reclassifies to `T_TOP` **exactly** the cells that
held `T_FILL` with `T_AIR` directly above after step 8, and no later
write invalidates this (step 9 is the last stage). -/
theorem top_tiles_correct (ic : (ℕ → ℚ) → ℤ → ℤ → Bool)
    (choice : ℕ → ℕ → ℕ → List ℕ) (cfg : BlueprintConfig) (s : Stream) (fuel : ℕ)
    (p : Cell) :
    ((generate ic choice cfg s fuel).grid p = T_TOP →
      1 ≤ p.2 ∧ (generate ic choice cfg s fuel).grid (p.1, p.2 - 1) = T_AIR ∧
      openTile ((generate ic choice cfg s fuel).grid (p.1, p.2 - 1))) ∧
    ((generate ic choice cfg s fuel).grid p = T_TOP ↔
      (inB cfg.width cfg.height p ∧ 1 ≤ p.2 ∧
        (afterStep8 ic choice cfg s fuel).grid p = T_FILL ∧
        (afterStep8 ic choice cfg s fuel).grid (p.1, p.2 - 1) = T_AIR)) := by
  rw [generate_eq_step9]
  set G8 := (afterStep8 ic choice cfg s fuel).grid with hG8
  have hcond : ∀ q : Cell,
      (step9_top cfg (afterStep8 ic choice cfg s fuel)).grid q = T_TOP ↔
      (0 ≤ q.1 ∧ q.1 < (cfg.width : ℤ) ∧ 1 ≤ q.2 ∧ q.2 < (cfg.height : ℤ) ∧
        G8 q = T_FILL ∧ G8 (q.1, q.2 - 1) = T_AIR) := by
    intro q
    show step9Grid cfg.width cfg.height G8 q = T_TOP ↔ _
    rw [step9Grid]
    constructor
    · intro hq
      by_cases hc : 0 ≤ q.1 ∧ q.1 < (cfg.width : ℤ) ∧ 1 ≤ q.2 ∧ q.2 < (cfg.height : ℤ) ∧
          G8 q = T_FILL ∧ G8 (q.1, q.2 - 1) = T_AIR
      · exact hc
      · rw [if_neg hc] at hq
        exact absurd hq (after8_no_top ic choice cfg s fuel q)
    · intro hc
      rw [if_pos hc]
  have hAbove : ∀ q : Cell, G8 (q.1, q.2 - 1) = T_AIR →
      (step9_top cfg (afterStep8 ic choice cfg s fuel)).grid (q.1, q.2 - 1) = T_AIR := by
    intro q hair
    show step9Grid cfg.width cfg.height G8 (q.1, q.2 - 1) = T_AIR
    rw [step9Grid]
    rw [if_neg ?hna]
    case hna =>
      rintro ⟨-, -, -, -, hfill, -⟩
      rw [hair] at hfill
      exact absurd hfill (by decide)
    exact hair
  constructor
  · intro hp
    obtain ⟨h1, h2, h3, h4, h5, h6⟩ := (hcond p).mp hp
    exact ⟨h3, hAbove p h6, by rw [hAbove p h6]; exact Or.inl rfl⟩
  · rw [hcond p]
    unfold inB
    constructor
    · rintro ⟨h1, h2, h3, h4, h5, h6⟩
      exact ⟨⟨h1, h2, by omega, h4⟩, h3, h5, h6⟩
    · rintro ⟨⟨h1, h2, -, h4⟩, h3, h5, h6⟩
      exact ⟨h1, h2, h3, h4, h5, h6⟩

/-- Witness for C5 on a concrete run: `(0,1)` is a `T_TOP` cell of the
finished grid, and the cell above it is open (air). -/
theorem top_tiles_correct_witness :
    (generate icNone choiceNone cfgSurf1 (constStream 0) 0).grid ((0 : ℤ), (1 : ℤ)) = T_TOP ∧
    (1 ≤ (1 : ℤ) ∧
      (generate icNone choiceNone cfgSurf1 (constStream 0) 0).grid ((0 : ℤ), (0 : ℤ)) = T_AIR ∧
      openTile ((generate icNone choiceNone cfgSurf1 (constStream 0) 0).grid ((0 : ℤ), (0 : ℤ)))) := by
  constructor
  · decide
  · exact (top_tiles_correct icNone choiceNone cfgSurf1 (constStream 0) 0
      ((0 : ℤ), (1 : ℤ))).1 (by decide)

/-! # Surface-line lemmas -/

theorem mem_rangeZ (lo hi x : ℤ) : x ∈ rangeZ lo hi ↔ lo ≤ x ∧ x < hi := by
  unfold rangeZ
  rw [List.mem_map]
  constructor
  · rintro ⟨i, hi, rfl⟩
    rw [List.mem_range] at hi
    omega
  · rintro ⟨h1, h2⟩
    refine ⟨(x - lo).toNat, ?_, ?_⟩
    · rw [List.mem_range]; omega
    · omega

theorem clipZ_bounds (v lo hi : ℤ) (hle : lo ≤ hi) :
    lo ≤ clipZ v lo hi ∧ clipZ v lo hi ≤ hi := by
  unfold clipZ
  constructor
  · exact le_min (le_max_right v lo) hle
  · exact min_le_right _ _

/-- Values written into the surface line by the column fold stay within
the clamp bounds. -/
theorem surfFold_values (cfg : BlueprintConfig) (s : Stream)
    (hle : cfg.surface_y_min ≤ cfg.surface_y_max) :
    ∀ (l : List ℕ) (a : SurfSt) (t : ℤ),
      (l.foldl (surfStep cfg s) a).surf t = a.surf t ∨
      ((cfg.surface_y_min : ℤ) ≤ (l.foldl (surfStep cfg s) a).surf t ∧
        (l.foldl (surfStep cfg s) a).surf t ≤ (cfg.surface_y_max : ℤ)) := by
  intro l
  induction l with
  | nil => intro a t; exact Or.inl rfl
  | cons x l ih =>
    intro a t
    rcases ih (surfStep cfg s a x) t with hp | hp
    · rw [List.foldl_cons, hp]
      unfold surfStep
      dsimp only []
      by_cases ht : t = (x : ℤ)
      · rw [if_pos ht]
        refine Or.inr (clipZ_bounds _ _ _ ?_)
        exact_mod_cast hle
      · rw [if_neg ht]
        exact Or.inl rfl
    · rw [List.foldl_cons]
      exact Or.inr hp

/-- Every column the fold processes ends up with an in-bounds surface
value. -/
theorem surfFold_covers (cfg : BlueprintConfig) (s : Stream)
    (hle : cfg.surface_y_min ≤ cfg.surface_y_max) :
    ∀ (l : List ℕ) (a : SurfSt) (x : ℕ), x ∈ l →
      (cfg.surface_y_min : ℤ) ≤ (l.foldl (surfStep cfg s) a).surf (x : ℤ) ∧
      (l.foldl (surfStep cfg s) a).surf (x : ℤ) ≤ (cfg.surface_y_max : ℤ) := by
  intro l
  induction l with
  | nil => intro a x hx; exact absurd hx (List.not_mem_nil x)
  | cons x' l ih =>
    intro a x hx
    rw [List.mem_cons] at hx
    rcases hx with rfl | hx
    · rw [List.foldl_cons]
      rcases surfFold_values cfg s hle l (surfStep cfg s a x) (x : ℤ) with hp | hp
      · rw [hp]
        unfold surfStep
        dsimp only []
        rw [if_pos rfl]
        refine clipZ_bounds _ _ _ ?_
        exact_mod_cast hle
      · exact hp
    · rw [List.foldl_cons]
      exact ih (surfStep cfg s a x') x hx

theorem surface_bounds (cfg : BlueprintConfig) (s : Stream)
    (hle : cfg.surface_y_min ≤ cfg.surface_y_max) (x : ℤ)
    (h0 : 0 ≤ x) (hw : x < (cfg.width : ℤ)) :
    (cfg.surface_y_min : ℤ) ≤ (afterStep2 cfg s).surface x ∧
    (afterStep2 cfg s).surface x ≤ (cfg.surface_y_max : ℤ) := by
  have hx : x.toNat ∈ List.range cfg.width := by rw [List.mem_range]; omega
  have := surfFold_covers cfg s hle (List.range cfg.width)
    { grid := (step1_init mkState).grid, surf := (step1_init mkState).surface,
      y := drawInt s (step1_init mkState).idx (cfg.surface_y_min : ℤ)
        ((cfg.surface_y_max : ℤ) + 1),
      idx := (step1_init mkState).idx + 1 } x.toNat hx
  rw [Int.toNat_of_nonneg h0] at this
  exact this

/-- Steps 3-9 never touch the surface line. -/
theorem step3_surface (cfg : BlueprintConfig) (s : Stream) (fuel : ℕ) (st : GenState) :
    (step3_tunnels cfg s fuel st).surface = st.surface := rfl

theorem step4_surface (cfg : BlueprintConfig) (s : Stream)
    (ic : (ℕ → ℚ) → ℤ → ℤ → Bool) (st : GenState) :
    (step4_caves cfg s ic st).surface = st.surface := rfl

theorem step5_surface (cfg : BlueprintConfig) (st : GenState) :
    (step5_filter cfg st).surface = st.surface := rfl

theorem step6_surface (cfg : BlueprintConfig) (choice : ℕ → ℕ → ℕ → List ℕ)
    (st : GenState) : (step6_connect cfg choice st).surface = st.surface := by
  unfold step6_connect
  by_cases hc : (findAirRegions cfg.width cfg.height st.grid).length ≤ 1
  · simp only [if_pos hc]
  · simp only [if_neg hc]

theorem step7_surface (cfg : BlueprintConfig) (st : GenState) :
    (step7_entry cfg st).surface = st.surface := by
  unfold step7_entry
  by_cases hc : (List.range cfg.width).any
      (fun x : ℕ => entryAt cfg st (surfaceMax cfg.width st.surface + 2) (x : ℤ)) = true
  · simp only [if_pos hc]
  · simp only [if_neg hc]

theorem step8_surface (cfg : BlueprintConfig) (W : Grid → ℤ → ℤ → Tile → Grid)
    (st : GenState) : (step8_spawn_goal cfg W st).surface = st.surface := rfl

theorem step9_surface (cfg : BlueprintConfig) (st : GenState) :
    (step9_top cfg st).surface = st.surface := rfl

theorem afterStep7_surface (ic : (ℕ → ℚ) → ℤ → ℤ → Bool)
    (choice : ℕ → ℕ → ℕ → List ℕ) (cfg : BlueprintConfig) (s : Stream) (fuel : ℕ) :
    (afterStep7 ic choice cfg s fuel).surface = (afterStep2 cfg s).surface := by
  unfold afterStep7 afterStep5 afterStep4
  rw [step7_surface, step6_surface, step5_surface, step4_surface, step3_surface]

theorem generate_surface (ic : (ℕ → ℚ) → ℤ → ℤ → Bool)
    (choice : ℕ → ℕ → ℕ → List ℕ) (cfg : BlueprintConfig) (s : Stream) (fuel : ℕ) :
    (generate ic choice cfg s fuel).surface = (afterStep2 cfg s).surface := by
  rw [generate_eq_step9, step9_surface]
  show (step8_spawn_goal cfg _ (afterStep7 ic choice cfg s fuel)).surface = _
  rw [step8_surface, afterStep7_surface]

/-! # Claim C6: spawn existence, uniqueness and placement -/

theorem spawnStep_fst (cfg : BlueprintConfig) (surf : ℤ → ℤ) (a : ℤ × Option ℤ)
    (x : ℤ) : (spawnStep cfg surf a x).1 = a.1 ∨ (spawnStep cfg surf a x).1 = x := by
  unfold spawnStep
  rcases a.2 with _ | b
  · exact Or.inr rfl
  · dsimp only []
    split
    · exact Or.inr rfl
    · exact Or.inl rfl

theorem spawnFold_fst (cfg : BlueprintConfig) (surf : ℤ → ℤ) :
    ∀ (l : List ℤ) (a : ℤ × Option ℤ),
      (l.foldl (spawnStep cfg surf) a).1 = a.1 ∨
      (l.foldl (spawnStep cfg surf) a).1 ∈ l := by
  intro l
  induction l with
  | nil => intro a; exact Or.inl rfl
  | cons x l ih =>
    intro a
    rw [List.foldl_cons]
    rcases ih (spawnStep cfg surf a x) with hp | hp
    · rw [hp]
      rcases spawnStep_fst cfg surf a x with hq | hq
      · exact Or.inl hq
      · exact Or.inr (by rw [hq]; exact List.mem_cons_self x l)
    · exact Or.inr (List.mem_cons_of_mem x hp)

theorem selectSpawnX_bounds (cfg : BlueprintConfig) (surf : ℤ → ℤ)
    (hw : 1 ≤ cfg.width) :
    0 ≤ selectSpawnX cfg surf ∧ selectSpawnX cfg surf < (cfg.width : ℤ) := by
  show 0 ≤ (List.foldl (spawnStep cfg surf) ((((cfg.width / 2 : ℕ) : ℤ)), none)
      (rangeZ (max 5 (((cfg.width / 2 : ℕ) : ℤ) - (cfg.width / 4 : ℕ)))
        (min ((cfg.width : ℤ) - 5) (((cfg.width / 2 : ℕ) : ℤ) + (cfg.width / 4 : ℕ))))).1 ∧
    (List.foldl (spawnStep cfg surf) ((((cfg.width / 2 : ℕ) : ℤ)), none)
      (rangeZ (max 5 (((cfg.width / 2 : ℕ) : ℤ) - (cfg.width / 4 : ℕ)))
        (min ((cfg.width : ℤ) - 5) (((cfg.width / 2 : ℕ) : ℤ) + (cfg.width / 4 : ℕ))))).1
      < (cfg.width : ℤ)
  rcases spawnFold_fst cfg surf
      (rangeZ (max 5 (((cfg.width / 2 : ℕ) : ℤ) - (cfg.width / 4 : ℕ)))
        (min ((cfg.width : ℤ) - 5) (((cfg.width / 2 : ℕ) : ℤ) + (cfg.width / 4 : ℕ))))
      (((cfg.width / 2 : ℕ) : ℤ), none) with hp | hp
  · rw [hp]
    constructor
    · show (0 : ℤ) ≤ ((cfg.width / 2 : ℕ) : ℤ)
      positivity
    · show ((cfg.width / 2 : ℕ) : ℤ) < (cfg.width : ℤ)
      have : cfg.width / 2 < cfg.width := Nat.div_lt_self (by omega) (by omega)
      exact_mod_cast this
  · rw [mem_rangeZ] at hp
    constructor
    · have h5 := le_trans (le_max_left 5 _) hp.1
      omega
    · have h6 := lt_of_lt_of_le hp.2 (min_le_left ((cfg.width : ℤ) - 5)
        (((cfg.width / 2 : ℕ) : ℤ) + (cfg.width / 4 : ℕ)))
      omega

/-- In-bounds NumPy writes are plain pointwise updates. -/
theorem npSet_in_bounds (w h : ℕ) (g : Grid) (x y : ℤ) (v : Tile)
    (hb : inB w h (x, y)) :
    npSet w h g x y v = fun p => if p = (x, y) then v else g p := by
  obtain ⟨h1, h2, h3, h4⟩ := hb
  have e1 : npIndex w x = some x := by
    unfold npIndex
    rw [if_pos ⟨h1, h2⟩]
  have e2 : npIndex h y = some y := by
    unfold npIndex
    rw [if_pos ⟨h3, h4⟩]
  unfold npSet
  rw [e1, e2]

/-- Step 8 with the NumPy write primitive: assuming the spawn target is
in bounds and the incoming grid holds no spawn tile, the cells holding
`T_SPAWN` afterwards are exactly the spawn target. -/
theorem step8_spawn_cells (cfg : BlueprintConfig) (st : GenState)
    (hin : inB cfg.width cfg.height
      (selectSpawnX cfg st.surface, st.surface (selectSpawnX cfg st.surface) - 1))
    (hnos : ∀ q, st.grid q ≠ T_SPAWN) :
    ∀ q, ((step8_spawn_goal cfg (npSet cfg.width cfg.height) st).grid q = T_SPAWN ↔
      q = (selectSpawnX cfg st.surface, st.surface (selectSpawnX cfg st.surface) - 1)) := by
  intro q
  have hup := npSet_in_bounds cfg.width cfg.height st.grid
    (selectSpawnX cfg st.surface) (st.surface (selectSpawnX cfg st.surface) - 1)
    T_SPAWN hin
  rcases hgoal : selectGoal cfg.width cfg.height
      (npSet cfg.width cfg.height st.grid (selectSpawnX cfg st.surface)
        (st.surface (selectSpawnX cfg st.surface) - 1) T_SPAWN)
      (selectSpawnX cfg st.surface) (st.surface (selectSpawnX cfg st.surface) - 1)
    with _ | pg
  · have hgrid : (step8_spawn_goal cfg (npSet cfg.width cfg.height) st).grid
        = npSet cfg.width cfg.height st.grid (selectSpawnX cfg st.surface)
          (st.surface (selectSpawnX cfg st.surface) - 1) T_SPAWN := by
      unfold step8_spawn_goal
      simp only [hgoal]
    rw [hgrid]
    simp only [hup]
    by_cases hq : q = (selectSpawnX cfg st.surface,
        st.surface (selectSpawnX cfg st.surface) - 1)
    · rw [if_pos hq]
      exact ⟨fun _ => hq, fun _ => rfl⟩
    · rw [if_neg hq]
      exact ⟨fun hs => absurd hs (hnos q), fun hs => absurd hs hq⟩
  · obtain ⟨hgB, hgair, -⟩ := selectGoal_first_max cfg.width cfg.height
      (npSet cfg.width cfg.height st.grid (selectSpawnX cfg st.surface)
        (st.surface (selectSpawnX cfg st.surface) - 1) T_SPAWN)
      (selectSpawnX cfg st.surface) (st.surface (selectSpawnX cfg st.surface) - 1)
      pg hgoal
    have hpgne : pg ≠ (selectSpawnX cfg st.surface,
        st.surface (selectSpawnX cfg st.surface) - 1) := by
      intro he
      simp only [hup] at hgair
      rw [he] at hgair
      rw [if_pos rfl] at hgair
      exact absurd hgair (by decide)
    have hgrid : (step8_spawn_goal cfg (npSet cfg.width cfg.height) st).grid
        = npSet cfg.width cfg.height
            (npSet cfg.width cfg.height st.grid (selectSpawnX cfg st.surface)
              (st.surface (selectSpawnX cfg st.surface) - 1) T_SPAWN)
            pg.1 pg.2 T_GOAL := by
      unfold step8_spawn_goal
      simp only [hgoal]
    have hinpg : inB cfg.width cfg.height (pg.1, pg.2) := hgB
    have hupg := npSet_in_bounds cfg.width cfg.height
      (npSet cfg.width cfg.height st.grid (selectSpawnX cfg st.surface)
        (st.surface (selectSpawnX cfg st.surface) - 1) T_SPAWN)
      pg.1 pg.2 T_GOAL hinpg
    rw [hgrid]
    simp only [hupg]
    by_cases hq : q = (pg.1, pg.2)
    · rw [if_pos hq]
      refine ⟨fun hgs => absurd hgs (by decide), fun he => ?_⟩
      exact absurd (hq.symm.trans he) hpgne
    · rw [if_neg hq]
      simp only [hup]
      by_cases hq2 : q = (selectSpawnX cfg st.surface,
          st.surface (selectSpawnX cfg st.surface) - 1)
      · rw [if_pos hq2]
        exact ⟨fun _ => hq2, fun _ => rfl⟩
      · rw [if_neg hq2]
        exact ⟨fun hs => absurd hs (hnos q), fun hs => absurd hs hq2⟩


/-- C6, amended: for every config with `1 ≤ surface_y_min ≤ surface_y_max
≤ height` and positive dimensions (the spawn row
`surface_line[spawn_x] - 1` is then a genuine in-bounds row), the final
grid holds exactly one `T_SPAWN` cell, its row within 2 of
`surface_line[its column] - 1` (in fact exactly that row): goal
placement and top detection never overwrite or duplicate it. -/
theorem spawn_placement (ic : (ℕ → ℚ) → ℤ → ℤ → Bool)
    (choice : ℕ → ℕ → ℕ → List ℕ) (cfg : BlueprintConfig) (s : Stream) (fuel : ℕ)
    (hw : 1 ≤ cfg.width) (hmin : 1 ≤ cfg.surface_y_min)
    (hle : cfg.surface_y_min ≤ cfg.surface_y_max)
    (hmax : cfg.surface_y_max ≤ cfg.height) :
    SpawnPlacementOK (generate ic choice cfg s fuel) := by
  set st7 := afterStep7 ic choice cfg s fuel with hst7
  have hsurf7 : st7.surface = (afterStep2 cfg s).surface :=
    afterStep7_surface ic choice cfg s fuel
  have hsxB := selectSpawnX_bounds cfg st7.surface hw
  have hsb := surface_bounds cfg s hle (selectSpawnX cfg st7.surface)
    (by exact hsxB.1) (by exact hsxB.2)
  rw [← hsurf7] at hsb
  have hin : inB cfg.width cfg.height
      (selectSpawnX cfg st7.surface, st7.surface (selectSpawnX cfg st7.surface) - 1) := by
    refine ⟨hsxB.1, hsxB.2, ?_, ?_⟩
    · show (0 : ℤ) ≤ _ - 1
      have : (1 : ℤ) ≤ (cfg.surface_y_min : ℤ) := by exact_mod_cast hmin
      omega
    · show _ - 1 < (cfg.height : ℤ)
      have : (cfg.surface_y_max : ℤ) ≤ (cfg.height : ℤ) := by exact_mod_cast hmax
      omega
  have hnos : ∀ q, st7.grid q ≠ T_SPAWN := by
    intro q hq
    rcases after7_air_or_fill ic choice cfg s fuel q with h | h <;>
      rw [hq] at h <;> exact absurd h (by decide)
  have h8 := step8_spawn_cells cfg st7 hin hnos
  set sc : Cell :=
    (selectSpawnX cfg st7.surface, st7.surface (selectSpawnX cfg st7.surface) - 1) with hsc
  have h9 : ∀ q, (generate ic choice cfg s fuel).grid q = T_SPAWN ↔
      (afterStep8 ic choice cfg s fuel).grid q = T_SPAWN := by
    intro q
    rw [generate_eq_step9]
    show step9Grid cfg.width cfg.height (afterStep8 ic choice cfg s fuel).grid q
        = T_SPAWN ↔ _
    rw [step9Grid]
    split
    · constructor
      · intro ht; exact absurd ht (by decide)
      · rename_i hcnd
        intro hs
        rw [hs] at hcnd
        exact absurd hcnd.2.2.2.2.1 (by decide)
    · exact Iff.rfl
  have h8' : ∀ q, (afterStep8 ic choice cfg s fuel).grid q = T_SPAWN ↔ q = sc := h8
  refine ⟨sc, ?_, ?_, ?_⟩
  · rw [h9 sc, h8' sc]
  · intro q hq
    rw [h9 q, h8' q] at hq
    exact hq
  · rw [generate_surface ic choice cfg s fuel, ← hsurf7]
    show |sc.2 - (st7.surface sc.1 - 1)| ≤ 2
    have he : sc.2 - (st7.surface sc.1 - 1) = 0 := sub_self _
    rw [he]
    norm_num

/-- Witness for the amended C6 on a concrete healthy config. -/
theorem spawn_placement_witness :
    1 ≤ cfgSurf1.width ∧ 1 ≤ cfgSurf1.surface_y_min ∧
    cfgSurf1.surface_y_min ≤ cfgSurf1.surface_y_max ∧
    cfgSurf1.surface_y_max ≤ cfgSurf1.height ∧
    SpawnPlacementOK (generate icNone choiceNone cfgSurf1 (constStream 0) 0) :=
  ⟨by decide, by decide, by decide, by decide,
    spawn_placement icNone choiceNone cfgSurf1 (constStream 0) 0
      (by decide) (by decide) (by decide) (by decide)⟩

/-- Counterexample to C6 as stated: with a surface of height 0 the spawn
write at row `-1` wraps to the bottom row (NumPy negative indexing), so
the unique spawn cell sits at row `height - 1`, far from
`surface_line[its column] - 1 = -1`. -/
theorem spawn_placement_cex :
    ¬ SpawnPlacementOK (generate icNone choiceNone cfgSurf0 (constStream 0) 0) := by
  rintro ⟨p, hsp, huniq, hdist⟩
  have h33 := huniq ((3 : ℤ), (3 : ℤ)) (by decide)
  rw [← h33] at hdist
  exact absurd hdist (by decide)

/-! # Claim C4: bounds discipline of grid writes -/

theorem npSet_eq_setIn (w h : ℕ) (g : Grid) (x y : ℤ) (v : Tile)
    (hb : inB w h (x, y)) : npSet w h g x y v = setIn w h g x y v := by
  rw [npSet_in_bounds w h g x y v hb]
  unfold setIn
  rw [if_pos hb]

/-- When the spawn target is in bounds, step 8 behaves identically under
NumPy writes and under bounds-checked writes (the goal write is always in
bounds, since the goal scan only selects in-range cells). -/
theorem step8_agree (cfg : BlueprintConfig) (st : GenState)
    (hin : inB cfg.width cfg.height
      (selectSpawnX cfg st.surface, st.surface (selectSpawnX cfg st.surface) - 1)) :
    step8_spawn_goal cfg (npSet cfg.width cfg.height) st
      = step8_spawn_goal cfg (setIn cfg.width cfg.height) st := by
  have hg1 : npSet cfg.width cfg.height st.grid (selectSpawnX cfg st.surface)
      (st.surface (selectSpawnX cfg st.surface) - 1) T_SPAWN
      = setIn cfg.width cfg.height st.grid (selectSpawnX cfg st.surface)
        (st.surface (selectSpawnX cfg st.surface) - 1) T_SPAWN :=
    npSet_eq_setIn cfg.width cfg.height st.grid _ _ T_SPAWN hin
  unfold step8_spawn_goal
  simp only [hg1]
  rcases hgoal : selectGoal cfg.width cfg.height
      (setIn cfg.width cfg.height st.grid (selectSpawnX cfg st.surface)
        (st.surface (selectSpawnX cfg st.surface) - 1) T_SPAWN)
      (selectSpawnX cfg st.surface) (st.surface (selectSpawnX cfg st.surface) - 1)
    with _ | pg
  · simp only [hgoal]
  · simp only [hgoal]
    obtain ⟨hgB, -, -⟩ := selectGoal_first_max cfg.width cfg.height
      (setIn cfg.width cfg.height st.grid (selectSpawnX cfg st.surface)
        (st.surface (selectSpawnX cfg st.surface) - 1) T_SPAWN)
      (selectSpawnX cfg st.surface) (st.surface (selectSpawnX cfg st.surface) - 1)
      pg hgoal
    have : inB cfg.width cfg.height (pg.1, pg.2) := hgB
    rw [npSet_eq_setIn cfg.width cfg.height _ pg.1 pg.2 T_GOAL this]

/-- The spawn write target is in bounds whenever the surface bounds are
positive and below the grid height. -/
theorem spawn_target_inB (ic : (ℕ → ℚ) → ℤ → ℤ → Bool)
    (choice : ℕ → ℕ → ℕ → List ℕ) (cfg : BlueprintConfig) (s : Stream) (fuel : ℕ)
    (hw : 1 ≤ cfg.width) (hmin : 1 ≤ cfg.surface_y_min)
    (hle : cfg.surface_y_min ≤ cfg.surface_y_max)
    (hmax : cfg.surface_y_max ≤ cfg.height) :
    inB cfg.width cfg.height
      (selectSpawnX cfg (afterStep7 ic choice cfg s fuel).surface,
        (afterStep7 ic choice cfg s fuel).surface
          (selectSpawnX cfg (afterStep7 ic choice cfg s fuel).surface) - 1) := by
  set st7 := afterStep7 ic choice cfg s fuel with hst7
  have hsurf7 : st7.surface = (afterStep2 cfg s).surface :=
    afterStep7_surface ic choice cfg s fuel
  have hsxB := selectSpawnX_bounds cfg st7.surface hw
  have hsb := surface_bounds cfg s hle (selectSpawnX cfg st7.surface) hsxB.1 hsxB.2
  rw [← hsurf7] at hsb
  refine ⟨hsxB.1, hsxB.2, ?_, ?_⟩
  · show (0 : ℤ) ≤ _ - 1
    have : (1 : ℤ) ≤ (cfg.surface_y_min : ℤ) := by exact_mod_cast hmin
    omega
  · show _ - 1 < (cfg.height : ℤ)
    have : (cfg.surface_y_max : ℤ) ≤ (cfg.height : ℤ) := by exact_mod_cast hmax
    omega

/-- C4, amended: all writes of the carving stages are bounds-checked
no-ops outside the grid, and for every config whose surface bounds
satisfy `1 ≤ surface_y_min ≤ surface_y_max ≤ height` (so that the spawn
row `surface_line[spawn_x] - 1` is a real row) the unguarded NumPy
writes of step 8 are in bounds too: the whole pipeline then coincides
with its fully bounds-checked variant.  Without that proviso the claim
fails: at surface height 0 the spawn write wraps to the bottom row (see
the counterexample). -/
theorem writes_guarded_of_surface_pos (ic : (ℕ → ℚ) → ℤ → ℤ → Bool)
    (choice : ℕ → ℕ → ℕ → List ℕ) (cfg : BlueprintConfig) (s : Stream) (fuel : ℕ)
    (hw : 1 ≤ cfg.width) (hmin : 1 ≤ cfg.surface_y_min)
    (hle : cfg.surface_y_min ≤ cfg.surface_y_max)
    (hmax : cfg.surface_y_max ≤ cfg.height) :
    generate ic choice cfg s fuel = generateSpecWrites ic choice cfg s fuel := by
  show step9_top cfg (step8_spawn_goal cfg (npSet cfg.width cfg.height)
      (afterStep7 ic choice cfg s fuel))
    = step9_top cfg (step8_spawn_goal cfg (setIn cfg.width cfg.height)
      (afterStep7 ic choice cfg s fuel))
  rw [step8_agree cfg (afterStep7 ic choice cfg s fuel)
    (spawn_target_inB ic choice cfg s fuel hw hmin hle hmax)]

/-- Witness for the amended C4 at a concrete healthy config. -/
theorem writes_guarded_witness :
    1 ≤ cfgSurf1.width ∧ 1 ≤ cfgSurf1.surface_y_min ∧
    cfgSurf1.surface_y_min ≤ cfgSurf1.surface_y_max ∧
    cfgSurf1.surface_y_max ≤ cfgSurf1.height ∧
    generate icNone choiceNone cfgSurf1 (constStream 0) 0
      = generateSpecWrites icNone choiceNone cfgSurf1 (constStream 0) 0 :=
  ⟨by decide, by decide, by decide, by decide,
    writes_guarded_of_surface_pos icNone choiceNone cfgSurf1 (constStream 0) 0
      (by decide) (by decide) (by decide) (by decide)⟩

/-- Counterexample to C4 as stated: with surface height 0 the spawn
write at row `-1` wraps around (NumPy negative indexing) and lands on
the bottom row instead of being skipped, so the pipeline differs from
its bounds-checked variant: the real run has `T_SPAWN` at `(3, 3)` where
the no-op-writes run has `T_GOAL`. -/
theorem writes_guarded_cex :
    ¬ ∀ (ic : (ℕ → ℚ) → ℤ → ℤ → Bool) (choice : ℕ → ℕ → ℕ → List ℕ)
      (cfg : BlueprintConfig) (s : Stream) (fuel : ℕ),
        generate ic choice cfg s fuel = generateSpecWrites ic choice cfg s fuel := by
  intro H
  have h : (generate icNone choiceNone cfgSurf0 (constStream 0) 0).grid
        ((3 : ℤ), (3 : ℤ))
      = (generateSpecWrites icNone choiceNone cfgSurf0 (constStream 0) 0).grid
        ((3 : ℤ), (3 : ℤ)) :=
    congrArg (fun st : GenState => st.grid ((3 : ℤ), (3 : ℤ)))
      (H icNone choiceNone cfgSurf0 (constStream 0) 0)
  rw [show (generate icNone choiceNone cfgSurf0 (constStream 0) 0).grid
      ((3 : ℤ), (3 : ℤ)) = T_SPAWN by decide] at h
  rw [show (generateSpecWrites icNone choiceNone cfgSurf0 (constStream 0) 0).grid
      ((3 : ℤ), (3 : ℤ)) = T_GOAL by decide] at h
  exact absurd h (by decide)

/-! # Claim C8: the surface carver's invariant -/

theorem foldl_setIn_rows (w h : ℕ) (v : Tile) (x : ℤ) :
    ∀ (rs : List ℤ) (g : Grid) (p : Cell),
      (rs.foldl (fun g1 r => setIn w h g1 x r v) g) p
        = if p.1 = x ∧ p.2 ∈ rs ∧ inB w h p then v else g p := by
  intro rs
  induction rs with
  | nil =>
    intro g p
    rw [List.foldl_nil, if_neg ?hneg]
    case hneg =>
      rintro ⟨-, hm, -⟩
      exact List.not_mem_nil p.2 hm
  | cons r rs ih =>
    intro g p
    rw [List.foldl_cons, ih]
    by_cases h1 : p.1 = x ∧ p.2 ∈ rs ∧ inB w h p
    · rw [if_pos h1, if_pos ⟨h1.1, List.mem_cons_of_mem r h1.2.1, h1.2.2⟩]
    · rw [if_neg h1]
      by_cases h2 : p.1 = x ∧ p.2 ∈ r :: rs ∧ inB w h p
      · rw [if_pos h2]
        have hpr : p.2 = r := by
          rcases List.mem_cons.mp h2.2.1 with he | he
          · exact he
          · exact absurd ⟨h2.1, he, h2.2.2⟩ h1
        have hpe : p = (x, r) := by
          rcases p with ⟨a, b⟩
          dsimp only [] at h2 hpr ⊢
          rw [h2.1, hpr]
        have hinB : inB w h (x, r) := hpe ▸ h2.2.2
        unfold setIn
        rw [if_pos hinB]
        show (if p = (x, r) then v else g p) = v
        rw [if_pos hpe]
      · rw [if_neg h2]
        unfold setIn
        by_cases h3 : inB w h (x, r)
        · rw [if_pos h3]
          show (if p = (x, r) then v else g p) = g p
          rw [if_neg ?_]
          intro hpe
          exact h2 ⟨by rw [hpe], by rw [hpe]; exact List.mem_cons_self r rs, hpe ▸ h3⟩
        · rw [if_neg h3]

theorem carveCol_char (w h : ℕ) (g : Grid) (x y : ℤ) (p : Cell) :
    carveCol w h g x y p
      = if p.1 = x ∧ 0 ≤ p.2 ∧ p.2 < min y (h : ℤ) ∧ inB w h p then T_AIR else g p := by
  unfold carveCol
  rw [foldl_setIn_rows w h T_AIR x (rangeZ 0 (min y (h : ℤ))) g p]
  by_cases h1 : p.1 = x ∧ p.2 ∈ rangeZ 0 (min y (h : ℤ)) ∧ inB w h p
  · rw [if_pos h1, if_pos ?_]
    obtain ⟨ha, hm, hb⟩ := h1
    rw [mem_rangeZ] at hm
    exact ⟨ha, hm.1, hm.2, hb⟩
  · rw [if_neg h1, if_neg ?_]
    rintro ⟨ha, h0, hy, hb⟩
    exact h1 ⟨ha, (mem_rangeZ 0 (min y (h : ℤ)) p.2).mpr ⟨h0, hy⟩, hb⟩

/-- The column fold of the surface carver: processed columns satisfy the
air-below-surface characterisation, untouched columns are unchanged. -/
theorem surfFold_char (cfg : BlueprintConfig) (s : Stream) :
    ∀ (l : List ℕ) (a : SurfSt), l.Nodup →
      (∀ x ∈ l, ∀ r : ℤ, a.grid ((x : ℤ), r) ≠ T_AIR) →
      ∀ p : Cell,
        ((∃ x ∈ l, (x : ℤ) = p.1) →
          ((l.foldl (surfStep cfg s) a).grid p = T_AIR ↔
            inB cfg.width cfg.height p ∧ p.2 < (l.foldl (surfStep cfg s) a).surf p.1)) ∧
        ((¬ ∃ x ∈ l, (x : ℤ) = p.1) →
          (l.foldl (surfStep cfg s) a).grid p = a.grid p ∧
          (l.foldl (surfStep cfg s) a).surf p.1 = a.surf p.1) := by
  intro l
  induction l with
  | nil =>
    intro a _ _ p
    refine ⟨?_, fun _ => ⟨rfl, rfl⟩⟩
    rintro ⟨x, hx, -⟩
    exact absurd hx (List.not_mem_nil x)
  | cons x l ih =>
    intro a hnd hcols p
    have hxnl : x ∉ l := (List.nodup_cons.mp hnd).1
    have hndl : l.Nodup := (List.nodup_cons.mp hnd).2
    set a' := surfStep cfg s a x with ha'
    have hgrid' : ∀ q : Cell, a'.grid q
        = if q.1 = (x : ℤ) ∧ 0 ≤ q.2 ∧
            q.2 < min (a'.surf (x : ℤ)) (cfg.height : ℤ) ∧ inB cfg.width cfg.height q
          then T_AIR else a.grid q := by
      intro q
      rw [ha']
      unfold surfStep
      dsimp only []
      rw [if_pos rfl]
      exact carveCol_char cfg.width cfg.height a.grid (x : ℤ) _ q
    have hsurf' : ∀ t : ℤ, t ≠ (x : ℤ) → a'.surf t = a.surf t := by
      intro t ht
      rw [ha']
      unfold surfStep
      dsimp only []
      rw [if_neg ht]
    have hcols' : ∀ x2 ∈ l, ∀ r : ℤ, a'.grid ((x2 : ℤ), r) ≠ T_AIR := by
      intro x2 hx2 r
      rw [hgrid' ((x2 : ℤ), r)]
      have hne : ((x2 : ℤ), r).1 ≠ (x : ℤ) := by
        dsimp only []
        intro he
        exact hxnl (by rwa [show x2 = x from by exact_mod_cast he] at hx2)
      rw [if_neg (fun hc => hne hc.1)]
      exact hcols x2 (List.mem_cons_of_mem x hx2) r
    have hI := ih a' hndl hcols' p
    rw [List.foldl_cons]
    constructor
    · rintro ⟨x', hx', hxe⟩
      by_cases hin : ∃ x2 ∈ l, (x2 : ℤ) = p.1
      · exact hI.1 hin
      · have hpx : p.1 = (x : ℤ) := by
          rcases List.mem_cons.mp hx' with rfl | hmem
          · exact hxe.symm
          · exact absurd ⟨x', hmem, hxe⟩ hin
        obtain ⟨hg, hs⟩ := hI.2 hin
        rw [hg, hs, hgrid' p]
        have hsx : a'.surf p.1 = a'.surf (x : ℤ) := by rw [hpx]
        constructor
        · intro hair
          by_cases hc : p.1 = (x : ℤ) ∧ 0 ≤ p.2 ∧
              p.2 < min (a'.surf (x : ℤ)) (cfg.height : ℤ) ∧ inB cfg.width cfg.height p
          · refine ⟨hc.2.2.2, ?_⟩
            rw [hsx]
            exact lt_of_lt_of_le hc.2.2.1 (min_le_left _ _)
          · rw [if_neg hc] at hair
            have := hcols x (List.mem_cons_self x l) p.2
            rw [show ((x : ℤ), p.2) = p from by
              rcases p with ⟨u, v⟩; dsimp only [] at hpx ⊢; rw [hpx]] at this
            exact absurd hair this
        · rintro ⟨hb, hlt⟩
          rw [if_pos ?_]
          refine ⟨hpx, hb.2.2.1, ?_, hb⟩
          rw [lt_min_iff]
          exact ⟨by rwa [← hsx], hb.2.2.2⟩
    · intro hnin
      have hnin' : ¬ ∃ x2 ∈ l, (x2 : ℤ) = p.1 := by
        rintro ⟨x2, hx2, he⟩
        exact hnin ⟨x2, List.mem_cons_of_mem x hx2, he⟩
      have hnx : p.1 ≠ (x : ℤ) := by
        intro he
        exact hnin ⟨x, List.mem_cons_self x l, he.symm⟩
      obtain ⟨hg, hs⟩ := hI.2 hnin'
      refine ⟨?_, ?_⟩
      · rw [hg, hgrid' p, if_neg (fun hc => hnx hc.1)]
      · rw [hs, hsurf' p.1 hnx]

/-- After the surface carver, a cell is air exactly when it lies in
bounds above the surface line of its column. -/
theorem step2_air_iff (cfg : BlueprintConfig) (s : Stream) (p : Cell) :
    (afterStep2 cfg s).grid p = T_AIR ↔
    inB cfg.width cfg.height p ∧ p.2 < (afterStep2 cfg s).surface p.1 := by
  have key := surfFold_char cfg s (List.range cfg.width)
    { grid := (step1_init mkState).grid, surf := (step1_init mkState).surface,
      y := drawInt s (step1_init mkState).idx (cfg.surface_y_min : ℤ)
        ((cfg.surface_y_max : ℤ) + 1),
      idx := (step1_init mkState).idx + 1 }
    (List.nodup_range cfg.width) (fun _ _ _ hc => @absurd (T_FILL = T_AIR) False hc (by decide)) p
  by_cases hin : ∃ x ∈ List.range cfg.width, (x : ℤ) = p.1
  · exact key.1 hin
  · obtain ⟨hg, -⟩ := key.2 hin
    show (List.foldl (surfStep cfg s) _ _).grid p = T_AIR ↔ _
    rw [hg]
    constructor
    · intro hair
      have hFA : T_FILL = T_AIR := hair
      exact absurd hFA (by decide)
    · rintro ⟨⟨h1, h2, -, -⟩, -⟩
      exact absurd ⟨p.1.toNat, by rw [List.mem_range]; omega, Int.toNat_of_nonneg h1⟩ hin

theorem adjC_symm (w h : ℕ) (g : Grid) {p q : Cell} (ha : adjC w h g p q) :
    adjC w h g q p := by
  obtain ⟨h1, h2, h3, h4, h5⟩ := ha
  refine ⟨h2, h1, h4, h3, ?_⟩
  rw [abs_sub_comm q.1 p.1, abs_sub_comm q.2 p.2]
  exact h5

theorem conn_symm (w h : ℕ) (g : Grid) {p q : Cell} (hc : conn w h g p q) :
    conn w h g q p :=
  Relation.ReflTransGen.symmetric (fun _ _ => adjC_symm w h g) hc

theorem adj_cases {w h : ℕ} {g : Grid} {p q : Cell} (ha : adjC w h g p q) :
    (q.1 = p.1 + 1 ∧ q.2 = p.2) ∨ (q.1 = p.1 - 1 ∧ q.2 = p.2) ∨
    (q.1 = p.1 ∧ q.2 = p.2 + 1) ∨ (q.1 = p.1 ∧ q.2 = p.2 - 1) := by
  obtain ⟨-, -, -, -, hd⟩ := ha
  rcases abs_cases (p.1 - q.1) with ⟨e1, s1⟩ | ⟨e1, s1⟩ <;>
    rcases abs_cases (p.2 - q.2) with ⟨e2, s2⟩ | ⟨e2, s2⟩ <;> omega

theorem adjC_mk (w h : ℕ) (g : Grid) (p q : Cell)
    (h1 : inB w h p) (h2 : inB w h q) (h3 : g p = T_AIR) (h4 : g q = T_AIR)
    (h5 : |p.1 - q.1| + |p.2 - q.2| = 1) : adjC w h g p q := ⟨h1, h2, h3, h4, h5⟩

/-- Descend a column of air cells down to row 0. -/
theorem conn_to_row0 (w h : ℕ) (g : Grid) (S : ℤ → ℤ)
    (hair : ∀ p : Cell, g p = T_AIR ↔ inB w h p ∧ p.2 < S p.1) :
    ∀ (n : ℕ) (p : Cell), p.2 = (n : ℤ) → g p = T_AIR → conn w h g p (p.1, 0) := by
  intro n
  induction n with
  | zero =>
    intro p hp _
    have hpe : (p.1, (0 : ℤ)) = p := by
      rcases p with ⟨u, v⟩
      dsimp only [] at hp ⊢
      rw [hp]
      norm_num
    rw [hpe]
    exact Relation.ReflTransGen.refl
  | succ n ih =>
    intro p hp hg
    obtain ⟨hb, hlt⟩ := (hair p).mp hg
    have hq : g (p.1, p.2 - 1) = T_AIR := by
      rw [hair (p.1, p.2 - 1)]
      obtain ⟨b1, b2, b3, b4⟩ := hb
      exact ⟨⟨b1, b2, by dsimp only []; omega, by dsimp only []; omega⟩,
        by dsimp only []; omega⟩
    have hadj : adjC w h g p (p.1, p.2 - 1) := by
      refine adjC_mk w h g p (p.1, p.2 - 1) hb ((hair _).mp hq).1 hg hq ?_
      dsimp only []
      rw [sub_self, abs_zero, show p.2 - (p.2 - 1) = 1 from by ring]
      norm_num
    have hc := ih (p.1, p.2 - 1) (by dsimp only []; omega) hq
    exact Relation.ReflTransGen.head hadj hc

/-- Walk right along an all-air row 0. -/
theorem conn_row0_right (w h : ℕ) (g : Grid)
    (hrow : ∀ x : ℤ, 0 ≤ x → x < (w : ℤ) → g (x, 0) = T_AIR) (hh : 1 ≤ h) :
    ∀ (d : ℕ) (x : ℤ), 0 ≤ x → x + d < (w : ℤ) →
      conn w h g (x, 0) (x + (d : ℤ), 0) := by
  intro d
  induction d with
  | zero => intro x _ _; simpa using Relation.ReflTransGen.refl
  | succ d ih =>
    intro x hx hxd
    have hstep : adjC w h g (x + (d : ℤ), 0) (x + (d : ℤ) + 1, 0) := by
      refine adjC_mk w h g _ _ ⟨by dsimp only []; omega, by dsimp only []; push_cast at hxd ⊢; omega,
          le_refl 0, by dsimp only []; omega⟩
        ⟨by dsimp only []; omega, by dsimp only []; push_cast at hxd ⊢; omega,
          le_refl 0, by dsimp only []; omega⟩
        (hrow _ (by omega) (by push_cast at hxd ⊢; omega))
        (hrow _ (by omega) (by push_cast at hxd ⊢; omega)) ?_
      dsimp only []
      rw [sub_self, abs_zero, show x + (d : ℤ) - (x + (d : ℤ) + 1) = -1 from by ring]
      norm_num
    have hc := ih x hx (by push_cast at hxd ⊢; omega)
    have := Relation.ReflTransGen.tail hc hstep
    rwa [show x + (d : ℤ) + 1 = x + ((d : ℕ) + 1 : ℕ) from by push_cast; ring] at this

/-- C8, amended: immediately after the Surface Carver, for every config
with positive dimensions and `1 ≤ surface_y_min ≤ surface_y_max` (and
any `surface_step_max ≤ 2` as the claim assumes), the surface line
assigns every column a height in `[surface_y_min, surface_y_max]`, and
the air cells form exactly one 4-connected region.  The connectivity in
fact follows from every column having height ≥ 1 (all of row 0 is open),
irrespective of the step bound; with `surface_y_min = 0` a zero-height
column can split the sky (see the counterexample). -/
theorem surface_stage_invariant (cfg : BlueprintConfig) (s : Stream)
    (hw : 1 ≤ cfg.width) (hh : 1 ≤ cfg.height) (hmin : 1 ≤ cfg.surface_y_min)
    (hle : cfg.surface_y_min ≤ cfg.surface_y_max)
    (hstep : cfg.surface_step_max ≤ 2) :
    (∀ x : ℤ, 0 ≤ x → x < (cfg.width : ℤ) →
      (cfg.surface_y_min : ℤ) ≤ (afterStep2 cfg s).surface x ∧
      (afterStep2 cfg s).surface x ≤ (cfg.surface_y_max : ℤ)) ∧
    SingleAirRegion cfg.width cfg.height (afterStep2 cfg s).grid := by
  have hb := fun x h0 hx => surface_bounds cfg s hle x h0 hx
  refine ⟨hb, ?_, ?_⟩
  · refine ⟨((0 : ℤ), (0 : ℤ)), ?_, ?_⟩
    · exact ⟨le_refl 0, by dsimp only []; omega, le_refl 0, by dsimp only []; omega⟩
    · rw [step2_air_iff]
      have hs := (hb 0 (le_refl 0) (by omega)).1
      have hm : (1 : ℤ) ≤ (cfg.surface_y_min : ℤ) := by exact_mod_cast hmin
      refine ⟨⟨le_refl 0, by dsimp only []; omega, le_refl 0, by dsimp only []; omega⟩, ?_⟩
      dsimp only [] at hs ⊢
      omega
  · intro p q hpB hpA hqB hqA
    have hrow : ∀ x : ℤ, 0 ≤ x → x < (cfg.width : ℤ) →
        (afterStep2 cfg s).grid (x, 0) = T_AIR := by
      intro x h0 hx
      rw [step2_air_iff]
      have hs := (hb x h0 hx).1
      have hm : (1 : ℤ) ≤ (cfg.surface_y_min : ℤ) := by exact_mod_cast hmin
      refine ⟨⟨h0, hx, le_refl 0, by dsimp only []; omega⟩, ?_⟩
      dsimp only [] at hs ⊢
      omega
    have hdownP := conn_to_row0 cfg.width cfg.height (afterStep2 cfg s).grid
      (afterStep2 cfg s).surface (step2_air_iff cfg s) p.2.toNat
      p (by have := hpB.2.2.1; omega) hpA
    have hdownQ := conn_to_row0 cfg.width cfg.height (afterStep2 cfg s).grid
      (afterStep2 cfg s).surface (step2_air_iff cfg s) q.2.toNat
      q (by have := hqB.2.2.1; omega) hqA
    have hcross : conn cfg.width cfg.height (afterStep2 cfg s).grid (p.1, 0) (q.1, 0) := by
      rcases le_or_lt p.1 q.1 with hle1 | hlt1
      · have := conn_row0_right cfg.width cfg.height (afterStep2 cfg s).grid hrow hh
          (q.1 - p.1).toNat p.1 hpB.1 (by have := hqB.2.1; have := hpB.1; omega)
        rwa [show p.1 + ((q.1 - p.1).toNat : ℤ) = q.1 from by omega] at this
      · have := conn_row0_right cfg.width cfg.height (afterStep2 cfg s).grid hrow hh
          (p.1 - q.1).toNat q.1 hqB.1 (by have := hpB.2.1; have := hqB.1; omega)
        rw [show q.1 + ((p.1 - q.1).toNat : ℤ) = p.1 from by omega] at this
        exact conn_symm cfg.width cfg.height _ this
    exact Relation.ReflTransGen.trans hdownP
      (Relation.ReflTransGen.trans hcross
        (conn_symm cfg.width cfg.height _ hdownQ))

/-- Witness for the amended C8 on a concrete config (3 × 2 grid, surface
pinned to height 1). -/
theorem surface_stage_invariant_witness :
    1 ≤ cfgRow.width ∧ 1 ≤ cfgRow.surface_y_min ∧
    cfgRow.surface_y_min ≤ cfgRow.surface_y_max ∧ cfgRow.surface_step_max ≤ 2 ∧
    SingleAirRegion cfgRow.width cfgRow.height (afterStep2 cfgRow (constStream 0)).grid :=
  ⟨by decide, by decide, by decide, by decide,
    (surface_stage_invariant cfgRow (constStream 0) (by decide) (by decide)
      (by decide) (by decide) (by decide)).2⟩

/-- Counterexample to C8 as stated: with `surface_y_min = 0` and
`surface_step_max = 2` the stream `streamGap` drives the surface to
heights `[1, 0, 1]`; the zero-height middle column splits the sky, so
the air cells `(0,0)` and `(2,0)` are not connected. -/
theorem surface_stage_cex :
    ¬ ∀ (cfg : BlueprintConfig) (s : Stream), cfg.surface_step_max ≤ 2 →
      ((∀ x : ℤ, 0 ≤ x → x < (cfg.width : ℤ) →
        (cfg.surface_y_min : ℤ) ≤ (afterStep2 cfg s).surface x ∧
        (afterStep2 cfg s).surface x ≤ (cfg.surface_y_max : ℤ)) ∧
       SingleAirRegion cfg.width cfg.height (afterStep2 cfg s).grid) := by
  intro H
  have hconn := (H cfgGap streamGap (by decide)).2.2 ((0 : ℤ), (0 : ℤ)) ((2 : ℤ), (0 : ℤ))
    (by decide) (by decide) (by decide) (by decide)
  rcases Relation.ReflTransGen.cases_head hconn with he | ⟨c, hadj, -⟩
  · exact absurd he (by decide)
  · have hcand := adj_cases hadj
    obtain ⟨-, hcB, -, hcA, -⟩ := hadj
    rcases hcand with ⟨e1, e2⟩ | ⟨e1, e2⟩ | ⟨e1, e2⟩ | ⟨e1, e2⟩ <;>
      (have hce : c = (c.1, c.2) := rfl
       rw [e1, e2] at hce)
    · rw [hce] at hcA
      exact absurd hcA (by decide)
    · rw [hce] at hcB
      exact absurd hcB.1 (by decide)
    · rw [hce] at hcA
      exact absurd hcA (by decide)
    · rw [hce] at hcB
      exact absurd hcB.2.2.1 (by decide)

/-! # Claim C7: the region filter leaves no small air region -/

theorem mem_scanRM (w h : ℕ) (p : Cell) : p ∈ scanRM w h ↔ inB w h p := by
  unfold scanRM inB
  rw [List.mem_flatMap]
  constructor
  · rintro ⟨y, hy, hp⟩
    rw [List.mem_range] at hy
    rw [List.mem_map] at hp
    obtain ⟨x, hx, rfl⟩ := hp
    rw [List.mem_range] at hx
    refine ⟨?_, ?_, ?_, ?_⟩ <;> dsimp only [] <;> omega
  · rintro ⟨h1, h2, h3, h4⟩
    refine ⟨p.2.toNat, by rw [List.mem_range]; omega, ?_⟩
    rw [List.mem_map]
    refine ⟨p.1.toNat, by rw [List.mem_range]; omega, ?_⟩
    rw [Int.toNat_of_nonneg h1, Int.toNat_of_nonneg h3]

theorem dist_one_cases {p q : Cell} (hd : |p.1 - q.1| + |p.2 - q.2| = 1) :
    (q.1 = p.1 + 1 ∧ q.2 = p.2) ∨ (q.1 = p.1 - 1 ∧ q.2 = p.2) ∨
    (q.1 = p.1 ∧ q.2 = p.2 + 1) ∨ (q.1 = p.1 ∧ q.2 = p.2 - 1) := by
  rcases abs_cases (p.1 - q.1) with ⟨e1, s1⟩ | ⟨e1, s1⟩ <;>
    rcases abs_cases (p.2 - q.2) with ⟨e2, s2⟩ | ⟨e2, s2⟩ <;> omega

theorem mem_nbrs_of_dist_one {p q : Cell} (hd : |p.1 - q.1| + |p.2 - q.2| = 1) :
    q ∈ nbrs p := by
  unfold nbrs
  have hq : q = (q.1, q.2) := rfl
  rcases dist_one_cases hd with ⟨e1, e2⟩ | ⟨e1, e2⟩ | ⟨e1, e2⟩ | ⟨e1, e2⟩ <;>
    rw [e1, e2] at hq <;> rw [hq] <;> simp

theorem conn_trans {w h : ℕ} {g : Grid} {p q r : Cell}
    (h1 : conn w h g p q) (h2 : conn w h g q r) : conn w h g p r :=
  Relation.ReflTransGen.trans h1 h2

/-- Component cells of an air start cell are in-bounds air cells. -/
theorem conn_air {w h : ℕ} {g : Grid} {p q : Cell}
    (hp : inB w h p ∧ g p = T_AIR) (hc : conn w h g p q) :
    inB w h q ∧ g q = T_AIR := by
  induction hc with
  | refl => exact hp
  | tail _ hadj ih => exact ⟨hadj.2.1, hadj.2.2.2.1⟩

/-- Connected cells have the same component. -/
theorem component_eq_of_conn {w h : ℕ} {g : Grid} {p q : Cell}
    (hc : conn w h g p q) : component w h g p = component w h g q := by
  ext x
  constructor
  · intro hx
    exact conn_trans (conn_symm w h g hc) hx
  · intro hx
    exact conn_trans hc hx

theorem mem_component_self (w h : ℕ) (g : Grid) (p : Cell) :
    p ∈ component w h g p := Relation.ReflTransGen.refl

theorem setIn_in_bounds (w h : ℕ) (g : Grid) (x y : ℤ) (v : Tile)
    (hb : inB w h (x, y)) :
    setIn w h g x y v = fun p => if p = (x, y) then v else g p := by
  unfold setIn
  rw [if_pos hb]

theorem fillCells_char (w h : ℕ) :
    ∀ (l : List Cell) (g : Grid), (∀ q ∈ l, inB w h q) →
      ∀ p, fillCells w h g l p = if p ∈ l then T_FILL else g p := by
  intro l
  induction l with
  | nil =>
    intro g _ p
    rw [if_neg (List.not_mem_nil p)]
    rfl
  | cons q l ih =>
    intro g hin p
    show fillCells w h (setIn w h g q.1 q.2 T_FILL) l p = _
    rw [ih (setIn w h g q.1 q.2 T_FILL) (fun r hr => hin r (List.mem_cons_of_mem q hr)) p]
    have hq : inB w h (q.1, q.2) := hin q (List.mem_cons_self q l)
    simp only [setIn_in_bounds w h g q.1 q.2 T_FILL hq]
    by_cases h1 : p ∈ l
    · rw [if_pos h1, if_pos (List.mem_cons_of_mem q h1)]
    · rw [if_neg h1]
      by_cases h2 : p = q
      · rw [if_pos (by rw [h2] : p = (q.1, q.2)),
          if_pos (by rw [h2]; exact List.mem_cons_self q l)]
      · rw [if_neg (fun hc : p = (q.1, q.2) => h2 hc),
          if_neg (by rw [List.mem_cons]; rintro (hc | hc); exact h2 hc; exact h1 hc)]

theorem mem_bfsDomain (w h : ℕ) (p : Cell) : p ∈ bfsDomain w h ↔ inB w h p := by
  unfold bfsDomain inB
  rw [Finset.mem_image]
  constructor
  · rintro ⟨q, hq, rfl⟩
    rw [Finset.mem_product, Finset.mem_range, Finset.mem_range] at hq
    refine ⟨?_, ?_, ?_, ?_⟩ <;> dsimp only [] <;> omega
  · rintro ⟨h1, h2, h3, h4⟩
    refine ⟨(p.1.toNat, p.2.toNat), ?_, ?_⟩
    · rw [Finset.mem_product, Finset.mem_range, Finset.mem_range]
      constructor <;> omega
    · dsimp only []
      rw [Int.toNat_of_nonneg h1, Int.toNat_of_nonneg h3]

theorem bfsDomain_card_le (w h : ℕ) : (bfsDomain w h).card ≤ w * h := by
  refine le_trans (Finset.card_image_le) ?_
  rw [Finset.card_product, Finset.card_range, Finset.card_range]

theorem dist_one_of_mem_nbrs {p q : Cell} (hm : q ∈ nbrs p) :
    |p.1 - q.1| + |p.2 - q.2| = 1 := by
  unfold nbrs at hm
  rw [List.mem_cons, List.mem_cons, List.mem_cons, List.mem_singleton] at hm
  rcases hm with rfl | rfl | rfl | rfl
  · dsimp only []
    rw [show p.1 - (p.1 - 1) = 1 from by ring, sub_self, abs_zero]
    norm_num
  · dsimp only []
    rw [show p.1 - (p.1 + 1) = -1 from by ring, sub_self, abs_zero]
    norm_num
  · dsimp only []
    rw [show p.2 - (p.2 - 1) = 1 from by ring, sub_self, abs_zero]
    norm_num
  · dsimp only []
    rw [show p.2 - (p.2 + 1) = -1 from by ring, sub_self, abs_zero]
    norm_num

/-- The neighbour-visiting fold of one BFS iteration: the region is
unchanged, queue facts, nodup and the visited-map characterisation are
preserved, visitation is monotone, and every in-bounds air neighbour
processed ends up visited. -/
theorem bfsVisit_fold (w h : ℕ) (g : Grid) (start : Cell) (vis0 : Vis) :
    ∀ (ns : List Cell) (a : BfsSt),
      (∀ n ∈ ns, inB w h n → g n = T_AIR → conn w h g start n) →
      (∀ x ∈ a.queue, conn w h g start x ∧ inB w h x ∧ g x = T_AIR) →
      ((a.region ++ a.queue).Nodup) →
      (∀ x, a.vis x = true ↔ (vis0 x = true ∨ x ∈ a.region ++ a.queue)) →
      (ns.foldl (bfsVisit w h g) a).region = a.region ∧
      (∀ x ∈ (ns.foldl (bfsVisit w h g) a).queue,
        conn w h g start x ∧ inB w h x ∧ g x = T_AIR) ∧
      ((ns.foldl (bfsVisit w h g) a).region ++ (ns.foldl (bfsVisit w h g) a).queue).Nodup ∧
      (∀ x, (ns.foldl (bfsVisit w h g) a).vis x = true ↔
        (vis0 x = true ∨ x ∈ (ns.foldl (bfsVisit w h g) a).region ++
          (ns.foldl (bfsVisit w h g) a).queue)) ∧
      (∀ x, a.vis x = true → (ns.foldl (bfsVisit w h g) a).vis x = true) ∧
      (∀ n ∈ ns, inB w h n → g n = T_AIR → (ns.foldl (bfsVisit w h g) a).vis n = true) := by
  intro ns
  induction ns with
  | nil =>
    intro a hconn hq hnd hv
    refine ⟨rfl, hq, hnd, hv, fun x hx => hx, ?_⟩
    intro n hn
    exact absurd hn (List.not_mem_nil n)
  | cons n ns ih =>
    intro a hconn hq hnd hv
    rw [List.foldl_cons]
    by_cases hc : inB w h n ∧ a.vis n = false ∧ g n = T_AIR
    · have hstep : bfsVisit w h g a n
          = ⟨a.queue ++ [n], fun q => if q = n then true else a.vis q, a.region⟩ := by
        unfold bfsVisit
        rw [if_pos hc]
      have hnmem : n ∉ a.region ++ a.queue := by
        intro hmem
        have := (hv n).mpr (Or.inr hmem)
        rw [hc.2.1] at this
        exact absurd this (by decide)
      have hq' : ∀ x ∈ (bfsVisit w h g a n).queue,
          conn w h g start x ∧ inB w h x ∧ g x = T_AIR := by
        rw [hstep]
        intro x hx
        rcases List.mem_append.mp hx with hx | hx
        · exact hq x hx
        · rw [List.mem_singleton] at hx
          rw [hx]
          exact ⟨hconn n (List.mem_cons_self n ns) hc.1 hc.2.2, hc.1, hc.2.2⟩
      have hnd' : ((bfsVisit w h g a n).region ++ (bfsVisit w h g a n).queue).Nodup := by
        rw [hstep]
        show (a.region ++ (a.queue ++ [n])).Nodup
        rw [← List.append_assoc, List.nodup_append]
        refine ⟨hnd, List.nodup_singleton n, ?_⟩
        intro x hx hx1
        rw [List.mem_singleton] at hx1
        subst hx1
        exact hnmem hx
      have hv' : ∀ x, (bfsVisit w h g a n).vis x = true ↔
          (vis0 x = true ∨ x ∈ (bfsVisit w h g a n).region ++ (bfsVisit w h g a n).queue) := by
        rw [hstep]
        intro x
        show (if x = n then true else a.vis x) = true ↔ _
        by_cases hx : x = n
        · rw [if_pos hx]
          constructor
          · intro _
            exact Or.inr (List.mem_append_right _ (List.mem_append_right _
              (by rw [List.mem_singleton]; exact hx)))
          · intro _
            rfl
        · rw [if_neg hx, hv x]
          constructor
          · rintro (h1 | h1)
            · exact Or.inl h1
            · rcases List.mem_append.mp h1 with h2 | h2
              · exact Or.inr (List.mem_append_left _ h2)
              · exact Or.inr (List.mem_append_right _ (List.mem_append_left _ h2))
          · rintro (h1 | h1)
            · exact Or.inl h1
            · rcases List.mem_append.mp h1 with h2 | h2
              · exact Or.inr (List.mem_append_left _ h2)
              · rcases List.mem_append.mp h2 with h3 | h3
                · exact Or.inr (List.mem_append_right _ h3)
                · rw [List.mem_singleton] at h3
                  exact absurd h3 hx
      obtain ⟨c1, c2, c3, c4, c5, c6⟩ := ih (bfsVisit w h g a n)
        (fun m hm => hconn m (List.mem_cons_of_mem n hm)) hq' hnd' hv'
      have hreg : (bfsVisit w h g a n).region = a.region := by rw [hstep]
      have hmono : ∀ x, a.vis x = true → (bfsVisit w h g a n).vis x = true := by
        rw [hstep]
        intro x hx
        show (if x = n then true else a.vis x) = true
        by_cases he : x = n
        · rw [if_pos he]
        · rw [if_neg he]; exact hx
      refine ⟨by rw [c1, hreg], c2, c3, c4, fun x hx => c5 x (hmono x hx), ?_⟩
      intro m hm hmB hmA
      rcases List.mem_cons.mp hm with rfl | hm
      · refine c5 m ?_
        rw [hstep]
        show (if m = m then true else a.vis m) = true
        rw [if_pos rfl]
      · exact c6 m hm hmB hmA
    · have hstep : bfsVisit w h g a n = a := by
        unfold bfsVisit
        rw [if_neg hc]
      rw [hstep]
      obtain ⟨c1, c2, c3, c4, c5, c6⟩ := ih a
        (fun m hm => hconn m (List.mem_cons_of_mem n hm)) hq hnd hv
      refine ⟨c1, c2, c3, c4, c5, ?_⟩
      intro m hm hmB hmA
      rcases List.mem_cons.mp hm with rfl | hm
      · refine c5 m ?_
        by_cases hvm : a.vis m = false
        · exact absurd ⟨hmB, hvm, hmA⟩ hc
        · cases hvb : a.vis m with
          | false => exact absurd hvb hvm
          | true => rfl
      · exact c6 m hm hmB hmA

theorem bfsStep_inv (w h : ℕ) (g : Grid) (start : Cell) (vis0 : Vis)
    (st : BfsSt) (hI : BfsInv w h g start vis0 st)
    (c : Cell) (rest : List Cell) (hq : st.queue = c :: rest) :
    BfsInv w h g start vis0 (bfsStep w h g st) ∧
    (∀ x, st.vis x = true → (bfsStep w h g st).vis x = true) := by
  have hcf := hI.qfacts c (by rw [hq]; exact List.mem_cons_self c rest)
  have hstep : bfsStep w h g st
      = (nbrs c).foldl (bfsVisit w h g) ⟨rest, st.vis, st.region ++ [c]⟩ := by
    unfold bfsStep
    rw [hq]
  have hmemperm : ∀ x : Cell,
      x ∈ (st.region ++ [c]) ++ rest ↔ x ∈ st.region ++ st.queue := by
    intro x
    rw [hq]
    rw [List.append_assoc, List.singleton_append]
  have hnd1 : ((st.region ++ [c]) ++ rest).Nodup := by
    rw [List.append_assoc, List.singleton_append, ← hq]
    exact hI.nodup
  have hconn : ∀ n ∈ nbrs c, inB w h n → g n = T_AIR → conn w h g start n := by
    intro n hn hnB hnA
    have hadj : adjC w h g c n :=
      ⟨hcf.2.1, hnB, hcf.2.2, hnA, dist_one_of_mem_nbrs hn⟩
    exact Relation.ReflTransGen.tail hcf.1 hadj
  have hq1 : ∀ x ∈ (⟨rest, st.vis, st.region ++ [c]⟩ : BfsSt).queue,
      conn w h g start x ∧ inB w h x ∧ g x = T_AIR := by
    intro x hx
    exact hI.qfacts x (by rw [hq]; exact List.mem_cons_of_mem c hx)
  have hv1 : ∀ x, (⟨rest, st.vis, st.region ++ [c]⟩ : BfsSt).vis x = true ↔
      (vis0 x = true ∨ x ∈ (st.region ++ [c]) ++ rest) := by
    intro x
    rw [hmemperm x]
    exact hI.visEq x
  obtain ⟨c1, c2, c3, c4, c5, c6⟩ := bfsVisit_fold w h g start vis0 (nbrs c)
    ⟨rest, st.vis, st.region ++ [c]⟩ hconn hq1 hnd1 hv1
  rw [← hstep] at c1 c2 c3 c4 c5 c6
  have hreg : (bfsStep w h g st).region = st.region ++ [c] := c1
  refine ⟨⟨c2, ?_, c3, c4, ?_⟩, c5⟩
  · intro x hx
    rw [hreg] at hx
    rcases List.mem_append.mp hx with hx | hx
    · exact hI.rfacts x hx
    · rw [List.mem_singleton] at hx
      rw [hx]
      exact hcf
  · intro a ha b hadj
    rw [hreg] at ha
    rcases List.mem_append.mp ha with ha | ha
    · exact c5 b (hI.closed a ha b hadj)
    · rw [List.mem_singleton] at ha
      rw [ha] at hadj
      exact c6 b (mem_nbrs_of_dist_one hadj.2.2.2.2) hadj.2.1 hadj.2.2.2.1

theorem bfsRun_inv (w h : ℕ) (g : Grid) (start : Cell) (vis0 : Vis) :
    ∀ (fuel : ℕ) (st : BfsSt), BfsInv w h g start vis0 st →
      BfsInv w h g start vis0 (bfsRun w h g fuel st) ∧
      (∀ x, st.vis x = true → (bfsRun w h g fuel st).vis x = true) := by
  intro fuel
  induction fuel with
  | zero => intro st hI; exact ⟨hI, fun x hx => hx⟩
  | succ n ih =>
    intro st hI
    rcases hq : st.queue with _ | ⟨c, rest⟩
    · have : bfsRun w h g (n + 1) st = st := by
        simp only [bfsRun, hq]
      rw [this]
      exact ⟨hI, fun x hx => hx⟩
    · have hrun : bfsRun w h g (n + 1) st = bfsRun w h g n (bfsStep w h g st) := by
        simp only [bfsRun, hq]
      obtain ⟨hI', hmono'⟩ := bfsStep_inv w h g start vis0 st hI c rest hq
      obtain ⟨hI'', hmono''⟩ := ih (bfsStep w h g st) hI'
      rw [hrun]
      exact ⟨hI'', fun x hx => hmono'' x (hmono' x hx)⟩

theorem filter_vis_update_card (w h : ℕ) (vis : Vis) (n : Cell)
    (hnB : inB w h n) (hnv : vis n = false) :
    ((bfsDomain w h).filter
        (fun p => (if p = n then true else vis p) = false)).card + 1
      = ((bfsDomain w h).filter (fun p => vis p = false)).card := by
  have hset : (bfsDomain w h).filter
      (fun p => (if p = n then true else vis p) = false)
      = ((bfsDomain w h).filter (fun p => vis p = false)).erase n := by
    ext q
    rw [Finset.mem_erase, Finset.mem_filter, Finset.mem_filter]
    constructor
    · intro ⟨hqd, hqv⟩
      by_cases hqn : q = n
      · rw [if_pos hqn] at hqv
        exact absurd hqv (by decide)
      · rw [if_neg hqn] at hqv
        exact ⟨hqn, hqd, hqv⟩
    · intro ⟨hqn, hqd, hqv⟩
      refine ⟨hqd, ?_⟩
      show (if q = n then true else vis q) = false
      rw [if_neg hqn]
      exact hqv
  rw [hset]
  have hmem : n ∈ (bfsDomain w h).filter (fun p => vis p = false) := by
    rw [Finset.mem_filter]
    exact ⟨(mem_bfsDomain w h n).mpr hnB, hnv⟩
  rw [Finset.card_erase_of_mem hmem]
  have := Finset.card_pos.mpr ⟨n, hmem⟩
  omega

theorem bfsVisit_measure (w h : ℕ) (g : Grid) (a : BfsSt) (n : Cell) :
    bfsMeasure w h (bfsVisit w h g a n) ≤ bfsMeasure w h a := by
  unfold bfsVisit
  by_cases hc : inB w h n ∧ a.vis n = false ∧ g n = T_AIR
  · rw [if_pos hc]
    unfold bfsMeasure
    dsimp only []
    rw [List.length_append, List.length_singleton]
    have hcard := filter_vis_update_card w h a.vis n hc.1 hc.2.1
    omega
  · rw [if_neg hc]

theorem bfsVisit_fold_measure (w h : ℕ) (g : Grid) :
    ∀ (ns : List Cell) (a : BfsSt),
      bfsMeasure w h (ns.foldl (bfsVisit w h g) a) ≤ bfsMeasure w h a := by
  intro ns
  induction ns with
  | nil => intro a; exact le_refl _
  | cons n ns ih =>
    intro a
    rw [List.foldl_cons]
    exact le_trans (ih (bfsVisit w h g a n)) (bfsVisit_measure w h g a n)

theorem bfsStep_measure (w h : ℕ) (g : Grid) (st : BfsSt)
    (c : Cell) (rest : List Cell) (hq : st.queue = c :: rest) :
    bfsMeasure w h (bfsStep w h g st) + 1 ≤ bfsMeasure w h st := by
  have hstep : bfsStep w h g st
      = (nbrs c).foldl (bfsVisit w h g) ⟨rest, st.vis, st.region ++ [c]⟩ := by
    unfold bfsStep
    rw [hq]
  rw [hstep]
  have h1 := bfsVisit_fold_measure w h g (nbrs c) ⟨rest, st.vis, st.region ++ [c]⟩
  have h2 : bfsMeasure w h (⟨rest, st.vis, st.region ++ [c]⟩ : BfsSt) + 1
      = bfsMeasure w h st := by
    unfold bfsMeasure
    dsimp only []
    rw [hq, List.length_cons]
    omega
  omega

theorem bfsRun_empties (w h : ℕ) (g : Grid) :
    ∀ (fuel : ℕ) (st : BfsSt), bfsMeasure w h st ≤ fuel →
      (bfsRun w h g fuel st).queue = [] := by
  intro fuel
  induction fuel with
  | zero =>
    intro st hm
    unfold bfsMeasure at hm
    have : st.queue.length = 0 := by omega
    rw [List.length_eq_zero] at this
    show (bfsRun w h g 0 st).queue = []
    unfold bfsRun
    exact this
  | succ n ih =>
    intro st hm
    rcases hq : st.queue with _ | ⟨c, rest⟩
    · have : bfsRun w h g (n + 1) st = st := by
        simp only [bfsRun, hq]
      rw [this, hq]
    · have hrun : bfsRun w h g (n + 1) st = bfsRun w h g n (bfsStep w h g st) := by
        simp only [bfsRun, hq]
      rw [hrun]
      refine ih (bfsStep w h g st) ?_
      have := bfsStep_measure w h g st c rest hq
      omega

/-- Master specification of `_bfs_flood`: starting from an in-bounds air
cell whose component is disjoint from the incoming visited set, the
returned region is exactly the 4-connected air component of the start
(without duplicates), and the returned visited map is the incoming one
plus that region. -/
theorem bfsFlood_spec (w h : ℕ) (g : Grid) (c : Cell) (vis0 : Vis)
    (hin : inB w h c) (hair : g c = T_AIR)
    (hdisj : ∀ x, conn w h g c x → vis0 x = false) :
    (∀ x, x ∈ (bfsFlood w h g c vis0).1 ↔ conn w h g c x) ∧
    (bfsFlood w h g c vis0).1.Nodup ∧
    (∀ x, (bfsFlood w h g c vis0).2 x = true ↔
      (vis0 x = true ∨ x ∈ (bfsFlood w h g c vis0).1)) := by
  have hv0c : vis0 c = false := hdisj c Relation.ReflTransGen.refl
  set st0 : BfsSt := ⟨[c], fun q => if q = c then true else vis0 q, []⟩ with hst0
  have hI0 : BfsInv w h g c vis0 st0 := by
    refine ⟨?_, ?_, ?_, ?_, ?_⟩
    · intro x hx
      rw [hst0] at hx
      rw [List.mem_singleton] at hx
      rw [hx]
      exact ⟨Relation.ReflTransGen.refl, hin, hair⟩
    · intro x hx
      exact absurd hx (List.not_mem_nil x)
    · show ([] ++ [c]).Nodup
      rw [List.nil_append]
      exact List.nodup_singleton c
    · intro x
      show (if x = c then true else vis0 x) = true ↔ (vis0 x = true ∨ x ∈ [] ++ [c])
      rw [List.nil_append, List.mem_singleton]
      by_cases hx : x = c
      · rw [if_pos hx]
        exact ⟨fun _ => Or.inr hx, fun _ => rfl⟩
      · rw [if_neg hx]
        exact ⟨fun hv => Or.inl hv, fun hv => by
          rcases hv with hv | hv
          · exact hv
          · exact absurd hv hx⟩
    · intro a ha
      exact absurd ha (List.not_mem_nil a)
  have hmeas : bfsMeasure w h st0 ≤ w * h + 1 := by
    unfold bfsMeasure
    rw [hst0]
    dsimp only []
    rw [List.length_singleton]
    have h1 : ((bfsDomain w h).filter
        (fun p => (if p = c then true else vis0 p) = false)).card
        ≤ (bfsDomain w h).card := Finset.card_filter_le _ _
    have h2 := bfsDomain_card_le w h
    omega
  obtain ⟨hIf, hmono⟩ := bfsRun_inv w h g c vis0 (w * h + 1) st0 hI0
  have hqe : (bfsRun w h g (w * h + 1) st0).queue = [] :=
    bfsRun_empties w h g (w * h + 1) st0 hmeas
  set stf := bfsRun w h g (w * h + 1) st0 with hstf
  have hflood : bfsFlood w h g c vis0 = (stf.region, stf.vis) := rfl
  have hvisf : ∀ x, stf.vis x = true ↔ (vis0 x = true ∨ x ∈ stf.region) := by
    intro x
    have := hIf.visEq x
    rwa [hqe, List.append_nil] at this
  have hcomplete : ∀ x, conn w h g c x → x ∈ stf.region := by
    intro x hx
    induction hx with
    | refl =>
      have hst : stf.vis c = true := by
        refine hmono c ?_
        rw [hst0]
        show (if c = c then true else vis0 c) = true
        rw [if_pos rfl]
      rcases (hvisf c).mp hst with hv | hv
      · rw [hv0c] at hv
        exact absurd hv (by decide)
      · exact hv
    | tail hbc hadj ih =>
      rename_i b cc
      have hb : b ∈ stf.region := ih
      have hcc : stf.vis cc = true := hIf.closed b hb cc hadj
      rcases (hvisf cc).mp hcc with hv | hv
      · have : vis0 cc = false := hdisj cc (Relation.ReflTransGen.tail hbc hadj)
        rw [this] at hv
        exact absurd hv (by decide)
      · exact hv
  refine ⟨?_, ?_, ?_⟩
  · intro x
    rw [hflood]
    constructor
    · intro hx
      exact (hIf.rfacts x hx).1
    · exact hcomplete x
  · rw [hflood]
    have := hIf.nodup
    rw [hqe, List.append_nil] at this
    exact this
  · intro x
    rw [hflood]
    exact hvisf x

/-- Connectivity transfers to a grid with more air. -/
theorem conn_mono (w h : ℕ) {g1 g0 : Grid}
    (hair : ∀ p, g1 p = T_AIR → g0 p = T_AIR) {p q : Cell}
    (hc : conn w h g1 p q) : conn w h g0 p q := by
  refine Relation.ReflTransGen.mono ?_ hc
  rintro a b ⟨h1, h2, h3, h4, h5⟩
  exact ⟨h1, h2, hair a h3, hair b h4, h5⟩

/-- Connectivity transfers to any grid agreeing on the whole
component. -/
theorem conn_lift (w h : ℕ) {g0 g1 : Grid} {c : Cell}
    (heq : ∀ q, conn w h g0 c q → g1 q = g0 q) :
    ∀ {x : Cell}, conn w h g0 c x → conn w h g1 c x := by
  intro x hx
  induction hx with
  | refl => exact Relation.ReflTransGen.refl
  | tail hcb hadj ih =>
    rename_i b xx
    refine Relation.ReflTransGen.tail ih ?_
    obtain ⟨h1, h2, h3, h4, h5⟩ := hadj
    refine ⟨h1, h2, ?_, ?_, h5⟩
    · rw [heq b hcb]; exact h3
    · rw [heq xx (Relation.ReflTransGen.tail hcb ⟨h1, h2, h3, h4, h5⟩)]; exact h4

/-- One scan cell of the region filter preserves the filter invariant. -/
theorem filterStep_inv (cfg : BlueprintConfig) (g0 : Grid) (processed : List Cell)
    (a : Grid × Vis) (c : Cell) (hcB : inB cfg.width cfg.height c)
    (hI : FiltInv cfg.width cfg.height g0 cfg.min_region_size processed a) :
    FiltInv cfg.width cfg.height g0 cfg.min_region_size (processed ++ [c])
      (filterStep cfg a c) := by
  obtain ⟨K1, K2a, K2b, K3⟩ := hI
  set w := cfg.width
  set h := cfg.height
  set k := cfg.min_region_size
  by_cases hrun : a.1 c = T_AIR ∧ a.2 c = false
  · have hg0c : g0 c = T_AIR := by
      have := K2b c (by
        rintro ⟨hv, -⟩
        rw [hrun.2] at hv
        exact absurd hv (by decide))
      rw [← this]
      exact hrun.1
    have hcompdisj : ∀ x, conn w h g0 c x → a.2 x = false := by
      intro x hx
      cases hvx : a.2 x with
      | false => rfl
      | true =>
        have := (K1 x hvx).2.2 c (conn_symm w h g0 hx)
        rw [hrun.2] at this
        exact absurd this (by decide)
    have hcompeq : ∀ q, conn w h g0 c q → a.1 q = g0 q := by
      intro q hq
      refine K2b q ?_
      rintro ⟨hv, -⟩
      have := hcompdisj q hq
      rw [this] at hv
      exact absurd hv (by decide)
    have hairdown : ∀ p, a.1 p = T_AIR → g0 p = T_AIR := by
      intro p hp
      by_cases hc2 : a.2 p = true ∧ (component w h g0 p).ncard < k
      · rw [K2a p hc2.1 hc2.2] at hp
        exact absurd hp (by decide)
      · rw [← K2b p hc2]
        exact hp
    have hiff : ∀ x, conn w h a.1 c x ↔ conn w h g0 c x := by
      intro x
      constructor
      · exact conn_mono w h hairdown
      · exact conn_lift w h hcompeq
    obtain ⟨hreg, hnd, hvis'⟩ := bfsFlood_spec w h a.1 c a.2 hcB hrun.1
      (fun x hx => hcompdisj x ((hiff x).mp hx))
    have hregg : ∀ x, x ∈ (bfsFlood w h a.1 c a.2).1 ↔ conn w h g0 c x := by
      intro x
      rw [hreg x]
      exact hiff x
    have hregfacts : ∀ x ∈ (bfsFlood w h a.1 c a.2).1,
        inB w h x ∧ g0 x = T_AIR := by
      intro x hx
      exact conn_air ⟨hcB, hg0c⟩ ((hregg x).mp hx)
    have hncard : (component w h g0 c).ncard = (bfsFlood w h a.1 c a.2).1.length := by
      have hco : component w h g0 c = ↑(bfsFlood w h a.1 c a.2).1.toFinset := by
        ext x
        show conn w h g0 c x ↔ x ∈ (bfsFlood w h a.1 c a.2).1.toFinset
        rw [List.mem_toFinset, hregg x]
      rw [hco, Set.ncard_coe_Finset, List.toFinset_card_of_nodup hnd]
    have hncard_mem : ∀ x, conn w h g0 c x →
        (component w h g0 x).ncard = (bfsFlood w h a.1 c a.2).1.length := by
      intro x hx
      rw [← component_eq_of_conn hx, hncard]
    have hfs : filterStep cfg a c
        = if (bfsFlood w h a.1 c a.2).1.length < k then
            (fillCells w h a.1 (bfsFlood w h a.1 c a.2).1, (bfsFlood w h a.1 c a.2).2)
          else (a.1, (bfsFlood w h a.1 c a.2).2) := by
      unfold filterStep
      rw [if_pos hrun]
    have hK1' : ∀ p, (bfsFlood w h a.1 c a.2).2 p = true →
        inB w h p ∧ g0 p = T_AIR ∧
        (∀ q, conn w h g0 p q → (bfsFlood w h a.1 c a.2).2 q = true) := by
      intro p hp
      rcases (hvis' p).mp hp with hv | hv
      · obtain ⟨hb, ha2, hcl⟩ := K1 p hv
        exact ⟨hb, ha2, fun q hq => (hvis' q).mpr (Or.inl (hcl q hq))⟩
      · have hcp := (hregg p).mp hv
        obtain ⟨hb, ha2⟩ := hregfacts p hv
        refine ⟨hb, ha2, ?_⟩
        intro q hq
        refine (hvis' q).mpr (Or.inr ?_)
        rw [hregg q]
        exact conn_trans hcp hq
    have hK3' : ∀ d ∈ processed ++ [c], inB w h d → g0 d = T_AIR →
        (bfsFlood w h a.1 c a.2).2 d = true := by
      intro d hd hdB hdA
      rcases List.mem_append.mp hd with hd | hd
      · exact (hvis' d).mpr (Or.inl (K3 d hd hdB hdA))
      · rw [List.mem_singleton] at hd
        rw [hd]
        refine (hvis' c).mpr (Or.inr ?_)
        rw [hregg c]
        exact Relation.ReflTransGen.refl
    rw [hfs]
    by_cases hsl : (bfsFlood w h a.1 c a.2).1.length < k
    · rw [if_pos hsl]
      have hfill := fillCells_char w h (bfsFlood w h a.1 c a.2).1 a.1
        (fun q hq => (hregfacts q hq).1)
      refine ⟨hK1', ?_, ?_, hK3'⟩
      · intro p hp hsmall
        show fillCells w h a.1 (bfsFlood w h a.1 c a.2).1 p = T_FILL
        rw [hfill p]
        by_cases hm : p ∈ (bfsFlood w h a.1 c a.2).1
        · rw [if_pos hm]
        · rw [if_neg hm]
          rcases (hvis' p).mp hp with hv | hv
          · exact K2a p hv hsmall
          · exact absurd hv hm
      · intro p hnp
        have hpm : p ∉ (bfsFlood w h a.1 c a.2).1 := by
          intro hm
          refine hnp ⟨(hvis' p).mpr (Or.inr hm), ?_⟩
          rw [hncard_mem p ((hregg p).mp hm)]
          exact hsl
        show fillCells w h a.1 (bfsFlood w h a.1 c a.2).1 p = g0 p
        rw [hfill p, if_neg hpm]
        refine K2b p ?_
        rintro ⟨hv, hs⟩
        exact hnp ⟨(hvis' p).mpr (Or.inl hv), hs⟩
    · rw [if_neg hsl]
      refine ⟨hK1', ?_, ?_, hK3'⟩
      · intro p hp hsmall
        rcases (hvis' p).mp hp with hv | hv
        · exact K2a p hv hsmall
        · rw [hncard_mem p ((hregg p).mp hv)] at hsmall
          exact absurd hsmall hsl
      · intro p hnp
        by_cases hm : p ∈ (bfsFlood w h a.1 c a.2).1
        · exact hcompeq p ((hregg p).mp hm)
        · refine K2b p ?_
          rintro ⟨hv, hs⟩
          exact hnp ⟨(hvis' p).mpr (Or.inl hv), hs⟩
  · have hfs : filterStep cfg a c = a := by
      unfold filterStep
      rw [if_neg hrun]
    rw [hfs]
    refine ⟨K1, K2a, K2b, ?_⟩
    intro d hd hdB hdA
    rcases List.mem_append.mp hd with hd | hd
    · exact K3 d hd hdB hdA
    · rw [List.mem_singleton] at hd
      rw [hd] at hdA ⊢
      by_contra hvc
      have hvf : a.2 c = false := by
        cases hcase : a.2 c with
        | false => rfl
        | true => exact absurd hcase hvc
      refine hrun ⟨?_, hvf⟩
      have := K2b c (fun hcc => hvc hcc.1)
      rw [this]
      exact hdA

/-- Folding the region filter over any list of in-bounds scan cells
preserves the filter invariant. -/
theorem filtFold (cfg : BlueprintConfig) (g0 : Grid) :
    ∀ (l processed : List Cell) (a : Grid × Vis),
      (∀ c ∈ l, inB cfg.width cfg.height c) →
      FiltInv cfg.width cfg.height g0 cfg.min_region_size processed a →
      FiltInv cfg.width cfg.height g0 cfg.min_region_size (processed ++ l)
        (l.foldl (filterStep cfg) a) := by
  intro l
  induction l with
  | nil =>
    intro processed a _ hI
    rw [List.append_nil]
    exact hI
  | cons c t ih =>
    intro processed a hl hI
    rw [List.foldl_cons]
    have h1 := filterStep_inv cfg g0 processed a c (hl c (List.mem_cons_self c t)) hI
    have h2 := ih (processed ++ [c]) (filterStep cfg a c)
      (fun d hd => hl d (List.mem_cons_of_mem c hd)) h1
    rw [List.append_assoc, List.singleton_append] at h2
    exact h2

/-- After the full region-filter scan the filter invariant holds with
every grid cell processed. -/
theorem step5_filtInv (cfg : BlueprintConfig) (st : GenState) :
    FiltInv cfg.width cfg.height st.grid cfg.min_region_size
      (scanRM cfg.width cfg.height)
      ((scanRM cfg.width cfg.height).foldl (filterStep cfg)
        (st.grid, fun _ => false)) := by
  have h0 : FiltInv cfg.width cfg.height st.grid cfg.min_region_size []
      (st.grid, fun _ => false) := by
    refine ⟨?_, ?_, ?_, ?_⟩
    · intro p hp
      exact Bool.noConfusion hp
    · intro p hp
      exact Bool.noConfusion hp
    · intro p _
      rfl
    · intro c hc _ _
      exact absurd hc (List.not_mem_nil c)
  have h1 := filtFold cfg st.grid (scanRM cfg.width cfg.height) []
    (st.grid, fun _ => false)
    (fun c hc => (mem_scanRM cfg.width cfg.height c).mp hc) h0
  rw [List.nil_append] at h1
  exact h1

/-- C7: Immediately after the Region Filter stage, for every Config and
seed, every maximal 4-connected region of Air cells in the grid has at
least `min_region_size` cells — every smaller region has been filled back
to Fill, and filling one region back never shrinks a surviving region
below the threshold. -/
theorem region_filter_correct (ic : (ℕ → ℚ) → ℤ → ℤ → Bool)
    (cfg : BlueprintConfig) (s : Stream) (fuel : ℕ) (p : Cell)
    (hin : inB cfg.width cfg.height p)
    (hair : (afterStep5 ic cfg s fuel).grid p = T_AIR) :
    cfg.min_region_size ≤
      (component cfg.width cfg.height (afterStep5 ic cfg s fuel).grid p).ncard := by
  obtain ⟨K1, K2a, K2b, K3⟩ := step5_filtInv cfg (afterStep4 ic cfg s fuel)
  set w := cfg.width
  set h := cfg.height
  set k := cfg.min_region_size
  set g0 := (afterStep4 ic cfg s fuel).grid with hg0
  set A := (scanRM w h).foldl (filterStep cfg) (g0, fun _ => false) with hA
  have hG : (afterStep5 ic cfg s fuel).grid = A.1 := rfl
  rw [hG] at hair ⊢
  have hg0airs : g0 p = T_AIR ∧
      ¬ (A.2 p = true ∧ (component w h g0 p).ncard < k) := by
    by_cases hc2 : A.2 p = true ∧ (component w h g0 p).ncard < k
    · rw [K2a p hc2.1 hc2.2] at hair
      exact absurd hair (by decide)
    · exact ⟨by rw [← K2b p hc2]; exact hair, hc2⟩
  have hvp : A.2 p = true := K3 p ((mem_scanRM w h p).mpr hin) hin hg0airs.1
  have hnotsmall : ¬ (component w h g0 p).ncard < k :=
    fun hs => hg0airs.2 ⟨hvp, hs⟩
  have hcells : ∀ q, conn w h g0 p q → A.1 q = g0 q := by
    intro q hq
    refine K2b q ?_
    rintro ⟨-, hs⟩
    rw [← component_eq_of_conn hq] at hs
    exact hnotsmall hs
  have hairdown : ∀ r, A.1 r = T_AIR → g0 r = T_AIR := by
    intro r hr
    by_cases hc2 : A.2 r = true ∧ (component w h g0 r).ncard < k
    · rw [K2a r hc2.1 hc2.2] at hr
      exact absurd hr (by decide)
    · rw [← K2b r hc2]
      exact hr
  have hcomp : component w h A.1 p = component w h g0 p := by
    ext x
    show conn w h A.1 p x ↔ conn w h g0 p x
    exact ⟨conn_mono w h hairdown, conn_lift w h hcells⟩
  rw [hcomp]
  exact Nat.le_of_not_lt hnotsmall

/-- Witness for C7: on the 3 × 2 config with a single air row the cell
`(0, 0)` is still air after the filter and its region meets the
threshold. -/
theorem region_filter_correct_witness :
    inB cfgRow.width cfgRow.height ((0 : ℤ), (0 : ℤ)) ∧
    (afterStep5 icNone cfgRow (constStream 0) 0).grid ((0 : ℤ), (0 : ℤ)) = T_AIR ∧
    cfgRow.min_region_size ≤
      (component cfgRow.width cfgRow.height
        (afterStep5 icNone cfgRow (constStream 0) 0).grid ((0 : ℤ), (0 : ℤ))).ncard :=
  ⟨by decide, by decide,
    region_filter_correct icNone cfgRow (constStream 0) 0 ((0 : ℤ), (0 : ℤ))
      (by decide) (by decide)⟩

end AshDiver
